import Mathlib

/-!
Verification of the JS-Swarm steering and force-aggregation engine.

This file gives a shallow embedding, over the real numbers, of the
simulation core of swarming.js: the 2D vector library, biods (agents),
emitters (force fields), predators, and the per-tick flock update.
JavaScript numbers are modelled as real numbers; Math.atan2(y, x) is
modelled by Complex.arg of the complex number with real part x and
imaginary part y (identical case analysis and range, including
atan2(0, 0) = 0), and the JavaScript remainder operator, which truncates
toward zero, is modelled by jsMod below.
-/

open Classical
open Real

/-- Model of the JavaScript remainder operator a % b: the remainder of
truncating division, so the result has the sign of the dividend a. -/
noncomputable def jsMod (a b : ℝ) : ℝ :=
  if 0 ≤ a / b then a - b * (⌊a / b⌋ : ℝ) else a - b * (⌈a / b⌉ : ℝ)

/-- Embedding of the Vector class: a plain 2D vector of reals. -/
structure Vec where
  x : ℝ
  y : ℝ

instance : Inhabited Vec := ⟨⟨0, 0⟩⟩

/-- Constant radsToDegs from the Vector constructor (a truncation of
180 divided by pi; the source stores the literal 57.2957795). -/
def radsToDegs : ℝ := 57.2957795

/-- Constant degsToRads from the Vector constructor (a truncation of
pi divided by 180; the source stores the literal 0.0174532925). -/
def degsToRads : ℝ := 0.0174532925

/-- Vector.prototype.length: Math.sqrt(x*x + y*y). -/
noncomputable def Vec.length (v : Vec) : ℝ :=
  Real.sqrt (v.x * v.x + v.y * v.y)

/-- Vector.prototype.normalize: divide by the length unless it is 0,
in which case the vector itself is returned. -/
noncomputable def Vec.normalize (v : Vec) : Vec :=
  if v.length ≠ 0 then ⟨v.x / v.length, v.y / v.length⟩ else v

/-- Vector.prototype.toAngle: Math.atan2(y, x), shifted into [0, 2*pi)
when negative.  Math.atan2(y, x) is Complex.arg of x + y*i. -/
noncomputable def Vec.toAngle (v : Vec) : ℝ :=
  if Complex.arg ⟨v.x, v.y⟩ < 0 then Complex.arg ⟨v.x, v.y⟩ + 2 * π
  else Complex.arg ⟨v.x, v.y⟩

/-- Vector.prototype.toDegrees: toAngle scaled by the radsToDegs literal. -/
noncomputable def Vec.toDegrees (v : Vec) : ℝ :=
  v.toAngle * radsToDegs

/-- Vector.prototype.fromAngle, as the vector it stores into this:
(cos radians, sin radians). -/
noncomputable def Vec.fromAngle (radians : ℝ) : Vec :=
  ⟨Real.cos radians, Real.sin radians⟩

/-- Vector.prototype.fromDegrees: fromAngle of degrees scaled by the
degsToRads literal. -/
noncomputable def Vec.fromDegrees (degrees : ℝ) : Vec :=
  Vec.fromAngle (degrees * degsToRads)

/-- Vector.prototype.scale. -/
def Vec.scale (v : Vec) (amount : ℝ) : Vec :=
  ⟨v.x * amount, v.y * amount⟩

/-- Vector.prototype.getDistance: Euclidean distance to the point. -/
noncomputable def Vec.getDistance (v point : Vec) : ℝ :=
  Real.sqrt ((point.x - v.x) ^ 2 + (point.y - v.y) ^ 2)

/-- Vector.prototype.getDirectionTo: the normalized difference vector. -/
noncomputable def Vec.getDirectionTo (v point : Vec) : Vec :=
  Vec.normalize ⟨point.x - v.x, point.y - v.y⟩

/-- Vector.prototype.add. -/
def Vec.add (v amount : Vec) : Vec :=
  ⟨v.x + amount.x, v.y + amount.y⟩

/-- Vector.prototype.dot, exactly as written in the source:
this.x * vector.x + this.y + vector.y.  Note the second term is added,
not multiplied, so this is not the mathematical dot product. -/
def Vec.dot (v vector : Vec) : ℝ :=
  v.x * vector.x + v.y + vector.y

/-- Modelled from the spec: the mathematical dot product that the
specification's forward-half-plane test refers to.  Used only to state
where the source's Vec.dot departs from it. -/
def specDot (u v : Vec) : ℝ :=
  u.x * v.x + u.y * v.y

/-- Embedding of the Biod class fields.  majorInfluence and
majorInfluenceStrength are the purely diagnostic fields. -/
structure Biod where
  position : Vec
  speed : ℝ
  turnSpeed : ℝ
  radius : ℝ
  proximityRadius : ℝ
  sightRadius : ℝ
  claustrophobicSeverity : ℝ
  sandboxDimensions : Vec
  emitterInfluences : List Vec
  heading : Vec
  majorInfluence : Option String
  majorInfluenceStrength : Option ℝ

instance : Inhabited Biod :=
  ⟨⟨⟨0, 0⟩, 0, 0, 0, 0, 0, 0, ⟨0, 0⟩, [], ⟨1, 0⟩, none, none⟩⟩

/-- Rotation amount chosen in Biod.prototype.move and
Predator.prototype.move (lines 204-209 and 788-793): compare the two
candidate arcs and turn by at most the turn speed in the shorter
direction. -/
noncomputable def moveRotation (turnSpeed newAngle currentAngle : ℝ) : ℝ :=
  let left := jsMod (newAngle - currentAngle + 360) 360
  let right := jsMod (currentAngle - newAngle + 360) 360
  if left < right then min turnSpeed left else -(min turnSpeed right)

/-- Embedding of Biod.prototype.move: bounded turn toward the new
heading, advance by speed, wrap with the remainder operator, and replace
a negative coordinate by the corresponding sandbox dimension. -/
noncomputable def Biod.move (b : Biod) (newHeading : Vec) : Biod :=
  let newAngle := newHeading.toDegrees
  let currentAngle := b.heading.toDegrees
  let rotationAmount := moveRotation b.turnSpeed newAngle currentAngle
  let heading2 := Vec.fromDegrees (jsMod (currentAngle + rotationAmount + 360) 360)
  let positionOffset := heading2.scale b.speed
  let px := jsMod (b.position.x + positionOffset.x) b.sandboxDimensions.x
  let py := jsMod (b.position.y + positionOffset.y) b.sandboxDimensions.y
  { b with
    heading := heading2
    position := ⟨if px < 0 then b.sandboxDimensions.x else px,
                 if py < 0 then b.sandboxDimensions.y else py⟩ }

/-- Neighbor scan of Biod.prototype.calculateNewHeading (lines 236-243).
The counter i tracks the loop index; the identity test (flock[i] != this)
is modelled as the index test i ≠ k.  The forward test is, exactly as in
the source, 0 < cos of the (source-defined) dot of the heading with the
direction to the candidate. -/
noncomputable def neighborsAux (self : Biod) (k : ℕ) : ℕ → List Biod → List Biod
  | _, [] => []
  | i, b :: rest =>
    if b.position.getDistance self.position ≤ self.sightRadius ∧ i ≠ k ∧
        0 < Real.cos (self.heading.dot (self.position.getDirectionTo b.position))
    then b :: neighborsAux self k (i + 1) rest
    else neighborsAux self k (i + 1) rest

/-- Visible neighbors of the biod at index k of the flock list. -/
noncomputable def neighborsOf (fl : List Biod) (k : ℕ) : List Biod :=
  neighborsAux (fl.getD k default) k 0 fl

/-- Per-neighbor repulsion contribution (lines 250-262).  The source
computes proximityPoint as the unit direction to the neighbor and then
calls proximityPoint.scale(this.proximityRadius), but scale returns a
fresh vector and does not mutate, and that return value is discarded, so
proximityPoint remains the unit direction vector when the distance is
taken.  The embedding reproduces that behavior. -/
noncomputable def crowdContribution (self nb : Biod) : Vec :=
  let proximityPoint := self.position.getDirectionTo nb.position
  let dist := nb.position.getDistance proximityPoint
  let force := dist * self.claustrophobicSeverity
  let force2 := if dist < self.radius + self.radius * 0.1 then force + 1000000 else force
  (nb.position.getDirectionTo self.position).scale force2

/-- Modelled from the spec: the radial point at distance proximityRadius
from the agent toward the neighbor, which the source's comment says
proximityPoint was meant to be. -/
noncomputable def specRadialPoint (self nb : Biod) : Vec :=
  ((self.position.getDirectionTo nb.position).scale self.proximityRadius).add self.position

/-- Modelled from the spec: the crowding repulsion magnitude
distance(neighbor, radialPoint) * crowdingSeverity. -/
noncomputable def specCrowdForce (self nb : Biod) : ℝ :=
  nb.position.getDistance (specRadialPoint self nb) * self.claustrophobicSeverity

/-- One step of the neighbor pass (lines 246-269): add the crowding
contribution when the neighbor is within the proximity radius, and
always accumulate its heading and position. -/
noncomputable def crowdingStep (self : Biod) (acc : Vec × ℕ × Vec × Vec) (nb : Biod) :
    Vec × ℕ × Vec × Vec :=
  let c :=
    if nb.position.getDistance self.position ≤ self.proximityRadius
    then (acc.1.add (crowdContribution self nb), acc.2.1 + 1)
    else (acc.1, acc.2.1)
  (c.1, c.2, acc.2.2.1.add nb.heading, acc.2.2.2.add nb.position)

/-- Single pass over the neighbor list (lines 246-269) accumulating, in
order: the claustrophobia sum, the crowding-neighbor count, the heading
sum and the position sum. -/
noncomputable def crowdingPass (self : Biod) (nbs : List Biod) : Vec × ℕ × Vec × Vec :=
  nbs.foldl (crowdingStep self) (⟨0, 0⟩, 0, ⟨0, 0⟩, ⟨0, 0⟩)

/-- Embedding of Biod.prototype.calculateNewHeading for the biod at
index k of the flock list.  Returns the desired heading together with
the updated biod (emitter influences cleared, diagnostic fields set),
since the source method mutates this. -/
noncomputable def Biod.calculateNewHeading (fl : List Biod) (k : ℕ) : Vec × Biod :=
  let self := fl.getD k default
  let nbs := neighborsOf fl k
  let acc := crowdingPass self nbs
  let claustroCount := acc.2.1
  let claustrophobia : Vec :=
    ⟨if acc.1.x ≠ 0 then acc.1.x / (claustroCount : ℝ) else acc.1.x,
     if acc.1.y ≠ 0 then acc.1.y / (claustroCount : ℝ) else acc.1.y⟩
  let avgHeading := acc.2.2.1.normalize
  let avgPositionPt : Vec :=
    ⟨if acc.2.2.2.x ≠ 0 then acc.2.2.2.x / (nbs.length : ℝ) else acc.2.2.2.x,
     if acc.2.2.2.y ≠ 0 then acc.2.2.2.y / (nbs.length : ℝ) else acc.2.2.2.y⟩
  let avgPosition := self.position.getDirectionTo avgPositionPt
  let emitterSum := self.emitterInfluences.foldl Vec.add ⟨0, 0⟩
  let claustroFactor := claustrophobia.length
  let cohesionFactor := avgHeading.length + avgPosition.length
  let emitterFactor := emitterSum.length
  let diag : String × ℝ :=
    if claustroFactor ≥ cohesionFactor ∧ claustroFactor ≥ emitterFactor then
      ("claustrophobia", claustroFactor)
    else if cohesionFactor ≥ emitterFactor then ("cohesion", cohesionFactor)
    else ("emitter", emitterFactor)
  let sum := ((emitterSum.add avgHeading).add claustrophobia).add avgPosition
  let divisor : ℝ := 3 + (self.emitterInfluences.length : ℝ)
  let newHeading : Vec := ⟨sum.x / divisor, sum.y / divisor⟩
  (newHeading.normalize,
   { self with
     emitterInfluences := []
     majorInfluence := some diag.1
     majorInfluenceStrength := some diag.2 })

/-- Embedding of the Emitter class fields.  functionType is the source's
string tag: "linear", "log" or "exp". -/
structure Emitter where
  position : Vec
  strength : ℝ
  radius : ℝ
  functionType : String
  repel : Bool

/-- Falloff amount of Emitter.prototype.update (the switch on
functionType, lines 648-661).  A tag that matches no case leaves the
amount 0, as in the source. -/
noncomputable def falloffAmount (e : Emitter) (distance : ℝ) : ℝ :=
  if e.functionType = "linear" then min e.strength distance
  else if e.functionType = "log" then max 0 (Real.log distance)
  else if e.functionType = "exp" then max 0 (distance * distance)
  else 0

/-- Influence pushed by Emitter.prototype.update onto one biod at the
given position: none when the biod is out of range, otherwise the
direction away from (repel) or toward (attract) the emitter scaled by
the clamped influence strength. -/
noncomputable def Emitter.influenceOn (e : Emitter) (pos : Vec) : Option Vec :=
  let distance := pos.getDistance e.position
  if distance ≤ e.radius then
    let influenceStrength := e.strength - falloffAmount e distance
    let influenceStrength := if influenceStrength < 0 then 0 else influenceStrength
    some (if e.repel then (e.position.getDirectionTo pos).scale influenceStrength
          else (pos.getDirectionTo e.position).scale influenceStrength)
  else none

/-- Embedding of Emitter.prototype.update: push the influence, when
there is one, onto each biod's per-tick accumulator. -/
noncomputable def Emitter.update (e : Emitter) (fl : List Biod) : List Biod :=
  fl.map fun b =>
    match e.influenceOn b.position with
    | some v => { b with emitterInfluences := b.emitterInfluences ++ [v] }
    | none => b

/-- Embedding of the Predator class fields.  The predator's owned
repulsive emitter is reconstructed from scariness and presence at each
move, with its position synchronized to the predator. -/
structure Predator where
  position : Vec
  speed : ℝ
  turnSpeed : ℝ
  radius : ℝ
  sightRadius : ℝ
  scariness : ℝ
  presence : ℝ
  sandboxDimensions : Vec
  heading : Vec

instance : Inhabited Predator :=
  ⟨⟨⟨0, 0⟩, 0, 0, 0, 0, 0, 0, ⟨0, 0⟩, ⟨1, 0⟩⟩⟩

/-- Embedding of Predator.prototype.calculateNewHeading (lines 751-777):
scan all biods, keep the closest one so far that passes the forward
test, and head toward the final victim, or keep the current heading when
there is none. -/
noncomputable def Predator.calculateNewHeading (p : Predator) (fl : List Biod) : Vec :=
  if fl.length = 0 then p.heading
  else
    let scan :=
      fl.foldl
        (fun (acc : Option Biod × ℝ) b =>
          if b.position.getDistance p.position < acc.2 then
            if 0 < Real.cos (p.heading.dot (p.position.getDirectionTo b.position)) then
              (some b, b.position.getDistance p.position)
            else acc
          else acc)
        (none, p.sightRadius + 1)
    match scan.1 with
    | some victim => p.position.getDirectionTo victim.position
    | none => p.heading

/-- Embedding of Predator.prototype.move: identical kinematics to
Biod.move, followed by the predator's emitter being repositioned and
applied to the flock.  Returns the moved predator and the updated
flock. -/
noncomputable def Predator.move (p : Predator) (newHeading : Vec) (fl : List Biod) :
    Predator × List Biod :=
  let newAngle := newHeading.toDegrees
  let currentAngle := p.heading.toDegrees
  let rotationAmount := moveRotation p.turnSpeed newAngle currentAngle
  let heading2 := Vec.fromDegrees (jsMod (currentAngle + rotationAmount + 360) 360)
  let positionOffset := heading2.scale p.speed
  let px := jsMod (p.position.x + positionOffset.x) p.sandboxDimensions.x
  let py := jsMod (p.position.y + positionOffset.y) p.sandboxDimensions.y
  let p2 :=
    { p with
      heading := heading2
      position := ⟨if px < 0 then p.sandboxDimensions.x else px,
                   if py < 0 then p.sandboxDimensions.y else py⟩ }
  (p2, Emitter.update ⟨p2.position, p.scariness, p.presence, "exp", true⟩ fl)

/-- Predation test from Flock.prototype.update (line 487): some predator
is closer to the biod than the larger of the two body radii. -/
def eatenBy (b : Biod) (ps : List Predator) : Prop :=
  ∃ p ∈ ps, b.position.getDistance p.position < max b.radius p.radius

/-- Predation phase of Flock.prototype.update (lines 481-500): the scan
removes the first biod some predator overlaps and then stops (the source
breaks out of both loops after one splice). -/
noncomputable def predation : List Biod → List Predator → List Biod
  | [], _ => []
  | b :: rest, ps => if eatenBy b ps then rest else b :: predation rest ps

/-- Flock state: the biods, the predators and the user-placed emitters
(rendering bodies and input handling are outside the model). -/
structure FlockState where
  flock : List Biod
  predators : List Predator
  emitters : List Emitter

/-- Predation followed by the emitter phase of Flock.prototype.update
(lines 503-505): every emitter applied to the flock in order. -/
noncomputable def preFlock (s : FlockState) : List Biod :=
  s.emitters.foldl (fun f e => e.update f) (predation s.flock s.predators)

/-- Predator movement loop (lines 520-521): each predator moves with its
precomputed heading, threading the flock through the emitter updates. -/
noncomputable def movePredators : List Predator → List Vec → List Biod →
    List Predator × List Biod
  | [], _, fl => ([], fl)
  | p :: ps, [], fl => (p :: ps, fl)
  | p :: ps, h :: hs, fl =>
    let r := p.move h fl
    let rest := movePredators ps hs r.2
    (r.1 :: rest.1, rest.2)

/-- Heading-computation loop of the biod phase (lines 527-529), modelled
operationally: the biod at index k is updated in place (its accumulator
cleared, diagnostics set) before the next index is processed, exactly as
the source's in-place mutation does.  The fuel argument is the loop trip
count, fixed at the start as the flock length. -/
noncomputable def headingPhaseAux : ℕ → ℕ → List Biod → List Vec → List Vec × List Biod
  | 0, _, fl, acc => (acc, fl)
  | fuel + 1, k, fl, acc =>
    let r := Biod.calculateNewHeading fl k
    headingPhaseAux fuel (k + 1) (fl.set k r.2) (acc ++ [r.1])

/-- Phase (a) of the biod update: compute every desired heading. -/
noncomputable def headingPhase (fl : List Biod) : List Vec × List Biod :=
  headingPhaseAux fl.length 0 fl []

/-- Phase (b) of the biod update (lines 532-533): move every biod with
its precomputed heading. -/
noncomputable def moveAll (fl : List Biod) (hs : List Vec) : List Biod :=
  (fl.zip hs).map fun bh => bh.1.move bh.2

/-- Simulation part of Flock.prototype.update (lines 480-533): predation,
emitters, predator headings then predator moves, biod headings then biod
moves.  Input handling and rendering-body updates are outside the
model. -/
noncomputable def Flock.update (s : FlockState) : FlockState :=
  let fl := preFlock s
  let pmoved := movePredators s.predators
    (s.predators.map fun p => p.calculateNewHeading fl) fl
  let hp := headingPhase pmoved.2
  { flock := moveAll hp.2 hp.1
    predators := pmoved.1
    emitters := s.emitters }

/-- Modelled from the spec: angular difference between two headings
measured in degrees with wraparound at 0/360. -/
noncomputable def circDistDeg (a b : ℝ) : ℝ :=
  min |a - b| (360 - |a - b|)

/-- Length is a square root, hence nonnegative. -/
theorem Vec.length_nonneg (v : Vec) : 0 ≤ v.length :=
  Real.sqrt_nonneg _

/-- Length vanishes exactly on the zero vector. -/
theorem Vec.length_eq_zero_iff (v : Vec) : v.length = 0 ↔ v = ⟨0, 0⟩ := by
  unfold Vec.length
  rw [Real.sqrt_eq_zero']
  obtain ⟨vx, vy⟩ := v
  constructor
  · intro h
    have hx : vx = 0 := by nlinarith
    have hy : vy = 0 := by nlinarith
    simp [hx, hy]
  · intro h
    rw [Vec.mk.injEq] at h
    simp [h.1, h.2]

/-- Normalizing the zero vector returns it unchanged. -/
theorem Vec.normalize_zero_vec : Vec.normalize ⟨0, 0⟩ = ⟨0, 0⟩ := by
  unfold Vec.normalize
  rw [if_neg]
  simp only [ne_eq, not_not]
  rw [Vec.length_eq_zero_iff]

/-- Normalizing a vector of nonzero length produces a unit vector. -/
theorem Vec.length_normalize (v : Vec) (h : v.length ≠ 0) : v.normalize.length = 1 := by
  have hnn : 0 ≤ v.x * v.x + v.y * v.y := by nlinarith [sq_nonneg v.x, sq_nonneg v.y]
  have hsq : v.length * v.length = v.x * v.x + v.y * v.y := Real.mul_self_sqrt hnn
  have hLpos : 0 < v.length := lt_of_le_of_ne (Vec.length_nonneg v) (Ne.symm h)
  unfold Vec.normalize
  rw [if_pos h]
  show Vec.length ⟨v.x / v.length, v.y / v.length⟩ = 1
  unfold Vec.length
  unfold Vec.length at hsq hLpos
  have hne : Real.sqrt (v.x * v.x + v.y * v.y) ≠ 0 := ne_of_gt hLpos
  have harg : v.x / Real.sqrt (v.x * v.x + v.y * v.y) * (v.x / Real.sqrt (v.x * v.x + v.y * v.y)) +
      v.y / Real.sqrt (v.x * v.x + v.y * v.y) * (v.y / Real.sqrt (v.x * v.x + v.y * v.y)) = 1 := by
    have hpos2 : 0 < v.x * v.x + v.y * v.y := Real.sqrt_pos.mp hLpos
    rw [div_mul_div_comm, div_mul_div_comm, div_add_div_same, hsq, div_self (ne_of_gt hpos2)]
  rw [harg]
  exact Real.sqrt_one

/-- Square-root evaluation at a perfect square. -/
theorem sqrt_eval {a c : ℝ} (hc : 0 ≤ c) (h : c * c = a) : Real.sqrt a = c := by
  rw [← h]
  exact Real.sqrt_mul_self hc

/-- Evaluation of jsMod when the dividend already lies in [0, b). -/
theorem jsMod_self_eval {a b : ℝ} (hb : 0 < b) (h0 : 0 ≤ a) (h1 : a < b) : jsMod a b = a := by
  unfold jsMod
  rw [if_pos (div_nonneg h0 hb.le)]
  have hfl : ⌊a / b⌋ = 0 := by
    rw [Int.floor_eq_zero_iff]
    exact ⟨div_nonneg h0 hb.le, by rwa [div_lt_one hb]⟩
  rw [hfl]
  simp

/-- Evaluation of jsMod when the dividend lies in [b, 2b). -/
theorem jsMod_shift_eval {a b : ℝ} (hb : 0 < b) (h0 : b ≤ a) (h1 : a < 2 * b) :
    jsMod a b = a - b := by
  unfold jsMod
  have hq0 : 0 ≤ a / b := div_nonneg (le_trans hb.le h0) hb.le
  rw [if_pos hq0]
  have hfl : ⌊a / b⌋ = 1 := by
    rw [Int.floor_eq_iff]
    constructor
    · rw [Int.cast_one, le_div_iff₀ hb]
      linarith
    · rw [div_lt_iff₀ hb]
      push_cast
      linarith
  rw [hfl]
  simp

/-- Evaluation of jsMod on a dividend in (-b, 0): the result keeps the
sign of the dividend. -/
theorem jsMod_neg_eval {a b : ℝ} (hb : 0 < b) (h0 : -b < a) (h1 : a < 0) : jsMod a b = a := by
  unfold jsMod
  have hq : ¬ 0 ≤ a / b := not_le.mpr (div_neg_of_neg_of_pos h1 hb)
  rw [if_neg hq]
  have hcl : ⌈a / b⌉ = 0 := by
    rw [Int.ceil_eq_zero_iff]
    constructor
    · show (-1 : ℝ) < a / b
      rw [lt_div_iff₀ hb]
      linarith
    · exact le_of_lt (div_neg_of_neg_of_pos h1 hb)
  rw [hcl]
  simp

/-- Bounds for jsMod on a nonnegative dividend. -/
theorem jsMod_bounds_nonneg {a b : ℝ} (hb : 0 < b) (h0 : 0 ≤ a) :
    0 ≤ jsMod a b ∧ jsMod a b < b := by
  unfold jsMod
  rw [if_pos (div_nonneg h0 hb.le)]
  constructor
  · have := Int.floor_le (a / b)
    have h2 : b * (⌊a / b⌋ : ℝ) ≤ b * (a / b) := by
      exact mul_le_mul_of_nonneg_left this hb.le
    rw [mul_div_cancel₀ a (ne_of_gt hb)] at h2
    linarith
  · have := Int.lt_floor_add_one (a / b)
    have h2 : b * (a / b) < b * ((⌊a / b⌋ : ℝ) + 1) := by
      exact mul_lt_mul_of_pos_left this hb
    rw [mul_div_cancel₀ a (ne_of_gt hb)] at h2
    nlinarith

/-- Bounds for jsMod on a negative dividend. -/
theorem jsMod_bounds_neg {a b : ℝ} (hb : 0 < b) (h0 : a < 0) :
    -b < jsMod a b ∧ jsMod a b ≤ 0 := by
  unfold jsMod
  have hq : ¬ 0 ≤ a / b := not_le.mpr (div_neg_of_neg_of_pos h0 hb)
  rw [if_neg hq]
  constructor
  · have := Int.ceil_lt_add_one (a / b)
    have h2 : b * (⌈a / b⌉ : ℝ) < b * (a / b + 1) := mul_lt_mul_of_pos_left this hb
    rw [mul_add, mul_div_cancel₀ a (ne_of_gt hb), mul_one] at h2
    linarith
  · have := Int.le_ceil (a / b)
    have h2 : b * (a / b) ≤ b * (⌈a / b⌉ : ℝ) := mul_le_mul_of_nonneg_left this hb.le
    rw [mul_div_cancel₀ a (ne_of_gt hb)] at h2
    linarith

/-- jsMod differs from the dividend by an integer multiple of the
divisor. -/
theorem jsMod_sub_int (a b : ℝ) : ∃ j : ℤ, jsMod a b = a - b * (j : ℝ) := by
  unfold jsMod
  by_cases hq : 0 ≤ a / b
  · exact ⟨⌊a / b⌋, by rw [if_pos hq]⟩
  · exact ⟨⌈a / b⌉, by rw [if_neg hq]⟩

/-- Complex number built from components, written as the standard
re + im * I form. -/
theorem complex_mk_eq (a b : ℝ) : (⟨a, b⟩ : ℂ) = (a : ℂ) + (b : ℂ) * Complex.I :=
  Complex.mk_eq_add_mul_I a b

/-- Angle recovery: toAngle of (cos θ, sin θ) is θ itself for θ in
[0, 2*pi). -/
theorem toAngle_fromAngle {θ : ℝ} (h0 : 0 ≤ θ) (h2 : θ < 2 * π) :
    (Vec.fromAngle θ).toAngle = θ := by
  have harg : Complex.arg ⟨Real.cos θ, Real.sin θ⟩ =
      if θ ≤ π then θ else θ - 2 * π := by
    split
    · rw [complex_mk_eq, Complex.ofReal_cos, Complex.ofReal_sin]
      exact Complex.arg_cos_add_sin_mul_I ⟨by linarith [Real.pi_pos], by assumption⟩
    · rename_i hgt
      push_neg at hgt
      have hc : Real.cos θ = Real.cos (θ - 2 * π) := (Real.cos_sub_two_pi θ).symm
      have hs : Real.sin θ = Real.sin (θ - 2 * π) := (Real.sin_sub_two_pi θ).symm
      rw [hc, hs, complex_mk_eq, Complex.ofReal_cos, Complex.ofReal_sin]
      exact Complex.arg_cos_add_sin_mul_I ⟨by linarith, by linarith [Real.pi_pos]⟩
  unfold Vec.toAngle Vec.fromAngle
  simp only
  rw [harg]
  split
  · rename_i hle
    rw [if_neg (by linarith)]
  · rename_i hgt
    push_neg at hgt
    rw [if_pos (by linarith [Real.pi_pos])]
    ring

/-- toAngle always lands in [0, 2*pi): lower bound. -/
theorem toAngle_nonneg (v : Vec) : 0 ≤ v.toAngle := by
  unfold Vec.toAngle
  split
  · linarith [Complex.neg_pi_lt_arg (⟨v.x, v.y⟩ : ℂ), Real.pi_pos]
  · linarith [Real.pi_pos]

/-- toAngle always lands in [0, 2*pi): upper bound. -/
theorem toAngle_lt_two_pi (v : Vec) : v.toAngle < 2 * π := by
  unfold Vec.toAngle
  split
  · rename_i hlt
    linarith
  · linarith [Complex.arg_le_pi (⟨v.x, v.y⟩ : ℂ), Real.pi_pos]

/-- toDegrees is nonnegative. -/
theorem toDegrees_nonneg (v : Vec) : 0 ≤ v.toDegrees := by
  unfold Vec.toDegrees
  have := toAngle_nonneg v
  unfold radsToDegs
  nlinarith

/-- toDegrees stays below 360 (the radsToDegs literal is slightly
smaller than 180 divided by pi). -/
theorem toDegrees_lt_360 (v : Vec) : v.toDegrees < 360 := by
  unfold Vec.toDegrees
  have h1 := toAngle_lt_two_pi v
  have h0 := toAngle_nonneg v
  have hpi := Real.pi_lt_d20
  unfold radsToDegs
  nlinarith

/-- Degree-space round trip through fromDegrees: for d in [0, 360) the
remeasured angle is d scaled by the product of the two conversion
literals. -/
theorem toDegrees_fromDegrees {d : ℝ} (h0 : 0 ≤ d) (h1 : d < 360) :
    (Vec.fromDegrees d).toDegrees = d * (degsToRads * radsToDegs) := by
  unfold Vec.fromDegrees Vec.toDegrees
  rw [toAngle_fromAngle (by unfold degsToRads; nlinarith)
    (by
      have hpi := Real.pi_gt_d20
      unfold degsToRads
      nlinarith)]
  ring

/-- Degree measure of the unit vector along positive x. -/
theorem toDegrees_unitX : (⟨1, 0⟩ : Vec).toDegrees = 0 := by
  unfold Vec.toDegrees Vec.toAngle
  have h : (⟨(⟨1, 0⟩ : Vec).x, (⟨1, 0⟩ : Vec).y⟩ : ℂ) = 1 := by
    rw [Complex.ext_iff]
    constructor <;> simp
  rw [h, Complex.arg_one]
  norm_num

/-- Degree measure of the zero vector: atan2(0, 0) = 0 in JavaScript,
matching Complex.arg 0 = 0. -/
theorem toDegrees_zeroVec : (⟨0, 0⟩ : Vec).toDegrees = 0 := by
  unfold Vec.toDegrees Vec.toAngle
  have h : (⟨(⟨0, 0⟩ : Vec).x, (⟨0, 0⟩ : Vec).y⟩ : ℂ) = 0 := by
    rw [Complex.ext_iff]
    constructor <;> simp
  rw [h, Complex.arg_zero]
  norm_num

/-- Degree measure of the unit vector along negative x. -/
theorem toDegrees_negX : (⟨-1, 0⟩ : Vec).toDegrees = π * radsToDegs := by
  unfold Vec.toDegrees Vec.toAngle
  have h : (⟨(⟨-1, 0⟩ : Vec).x, (⟨-1, 0⟩ : Vec).y⟩ : ℂ) = -1 := by
    rw [Complex.ext_iff]
    constructor <;> simp
  rw [h, Complex.arg_neg_one, if_neg (by linarith [Real.pi_pos])]

/-- Degree measure of the unit vector along positive y. -/
theorem toDegrees_unitY : (⟨0, 1⟩ : Vec).toDegrees = π / 2 * radsToDegs := by
  unfold Vec.toDegrees Vec.toAngle
  have h : (⟨(⟨0, 1⟩ : Vec).x, (⟨0, 1⟩ : Vec).y⟩ : ℂ) = Complex.I := by
    rw [Complex.ext_iff]
    constructor <;> simp
  rw [h, Complex.arg_I, if_neg (by linarith [Real.pi_pos])]

/-- Degree measure of the unit vector along negative y. -/
theorem toDegrees_negY : (⟨0, -1⟩ : Vec).toDegrees = 3 * π / 2 * radsToDegs := by
  unfold Vec.toDegrees Vec.toAngle
  have h : (⟨(⟨0, -1⟩ : Vec).x, (⟨0, -1⟩ : Vec).y⟩ : ℂ) = -Complex.I := by
    rw [Complex.ext_iff]
    constructor <;> simp
  rw [h, Complex.arg_neg_I, if_pos (by linarith [Real.pi_pos])]
  ring

/-- Distance evaluation at points whose distance is exactly
representable. -/
theorem getDistance_eval {ax ay px py L : ℝ} (hL : 0 ≤ L)
    (h : L * L = (px - ax) ^ 2 + (py - ay) ^ 2) :
    Vec.getDistance ⟨ax, ay⟩ ⟨px, py⟩ = L := by
  unfold Vec.getDistance
  exact sqrt_eval hL h

/-- Normalization evaluation at a vector whose length is exactly
representable. -/
theorem normalize_eval {vx vy L : ℝ} (hL : 0 < L) (h : L * L = vx * vx + vy * vy) :
    Vec.normalize ⟨vx, vy⟩ = ⟨vx / L, vy / L⟩ := by
  have hlen : (⟨vx, vy⟩ : Vec).length = L := by
    unfold Vec.length
    exact sqrt_eval hL.le h
  unfold Vec.normalize
  rw [hlen]
  rw [if_pos (ne_of_gt hL)]

/-- Concrete emitter of the specification's repulsive-field scenario:
linear repulsive field at (100,100) with strength 50 and radius 30. -/
def eC8 : Emitter := ⟨⟨100, 100⟩, 50, 30, "linear", true⟩

/-- C8 counterexample: an agent exactly at the field's position is
within the radius and receives a contribution, but the contribution is
the zero vector (magnitude 0), not the claimed magnitude
max(0, strength - falloffAmount) = 50, because the normalized direction
between coincident points is the zero vector. -/
theorem c8_field_counterexample :
    Emitter.influenceOn eC8 ⟨100, 100⟩ = some ⟨0, 0⟩ ∧
    (⟨0, 0⟩ : Vec).length = 0 ∧
    max 0 (eC8.strength - falloffAmount eC8 (Vec.getDistance ⟨100, 100⟩ eC8.position)) = 50 ∧
    (0 : ℝ) ≠ 50 := by
  have hdist : Vec.getDistance ⟨(100 : ℝ), 100⟩ (⟨100, 100⟩ : Vec) = 0 :=
    getDistance_eval le_rfl (by norm_num)
  have hfall : falloffAmount eC8 0 = 0 := by
    unfold falloffAmount eC8
    norm_num
  refine ⟨?_, ?_, ?_, by norm_num⟩
  · simp only [eC8, Emitter.influenceOn, falloffAmount, hdist]
    norm_num [Vec.getDirectionTo, Vec.normalize_zero_vec, Vec.scale]
  · rw [Vec.length_eq_zero_iff]
  · simp only [eC8, falloffAmount, hdist]
    norm_num

/-- Length of a scaled vector. -/
theorem Vec.length_scale (v : Vec) (c : ℝ) : (v.scale c).length = |c| * v.length := by
  unfold Vec.scale Vec.length
  rw [show v.x * c * (v.x * c) + v.y * c * (v.y * c) = c * c * (v.x * v.x + v.y * v.y) by ring]
  rw [Real.sqrt_mul (mul_self_nonneg c), Real.sqrt_mul_self_eq_abs]

/-- Difference vector from a to q is nonzero when the points differ. -/
theorem diff_length_ne_zero {a q : Vec} (hne : q ≠ a) :
    (⟨q.x - a.x, q.y - a.y⟩ : Vec).length ≠ 0 := by
  rw [Ne, Vec.length_eq_zero_iff]
  intro hz
  rw [Vec.mk.injEq] at hz
  apply hne
  calc q = ⟨q.x, q.y⟩ := rfl
    _ = ⟨a.x, a.y⟩ := by
        rw [Vec.mk.injEq]
        constructor <;> linarith [hz.1, hz.2]
    _ = a := rfl

/-- A scaled direction vector is a nonnegative multiple of the
difference vector. -/
theorem getDirectionTo_scale_form (a q : Vec) (c : ℝ) (hc : 0 ≤ c) (hne : q ≠ a) :
    ∃ t : ℝ, 0 ≤ t ∧ (a.getDirectionTo q).scale c =
      ⟨(q.x - a.x) * t, (q.y - a.y) * t⟩ := by
  have hq := diff_length_ne_zero hne
  have hLpos : 0 < (⟨q.x - a.x, q.y - a.y⟩ : Vec).length :=
    lt_of_le_of_ne (Vec.length_nonneg _) (Ne.symm hq)
  refine ⟨c / (⟨q.x - a.x, q.y - a.y⟩ : Vec).length, div_nonneg hc hLpos.le, ?_⟩
  unfold Vec.getDirectionTo Vec.normalize
  rw [if_pos hq]
  unfold Vec.scale
  rw [Vec.mk.injEq]
  constructor <;> field_simp

/-- Length of a scaled direction vector between distinct points. -/
theorem length_direction_scale (a q : Vec) (c : ℝ) (hc : 0 ≤ c) (hne : q ≠ a) :
    ((a.getDirectionTo q).scale c).length = c := by
  have hq := diff_length_ne_zero hne
  rw [Vec.length_scale]
  unfold Vec.getDirectionTo
  rw [Vec.length_normalize _ hq, abs_of_nonneg hc, mul_one]

/-- Evaluation of an in-range emitter influence: the branch taken and
the clamp written as a max. -/
theorem influenceOn_in_range (e : Emitter) (p : Vec)
    (h : p.getDistance e.position ≤ e.radius) :
    e.influenceOn p =
      some (if e.repel then
              (e.position.getDirectionTo p).scale
                (max 0 (e.strength - falloffAmount e (p.getDistance e.position)))
            else
              (p.getDirectionTo e.position).scale
                (max 0 (e.strength - falloffAmount e (p.getDistance e.position)))) := by
  unfold Emitter.influenceOn
  rw [if_pos h]
  have hmax : (if e.strength - falloffAmount e (p.getDistance e.position) < 0 then (0 : ℝ)
      else e.strength - falloffAmount e (p.getDistance e.position)) =
      max 0 (e.strength - falloffAmount e (p.getDistance e.position)) := by
    rcases lt_or_le (e.strength - falloffAmount e (p.getDistance e.position)) 0 with h2 | h2
    · rw [if_pos h2, max_eq_left h2.le]
    · rw [if_neg (not_lt.mpr h2), max_eq_right h2]
  show some (if e.repel then
      (e.position.getDirectionTo p).scale
        (if e.strength - falloffAmount e (p.getDistance e.position) < 0 then 0
         else e.strength - falloffAmount e (p.getDistance e.position))
    else
      (p.getDirectionTo e.position).scale
        (if e.strength - falloffAmount e (p.getDistance e.position) < 0 then 0
         else e.strength - falloffAmount e (p.getDistance e.position))) = _
  rw [hmax]

/-- C8 (amended): an agent strictly outside the radius receives no
contribution; an agent within the radius and not exactly at the field's
position receives one contribution of magnitude
max(0, strength - falloffAmount), pointing away from the field when it
repels and toward it otherwise (an agent exactly at the field's position
receives the zero vector instead, see the counterexample).  The
repulsive-field scenario of the claim evaluates as stated. -/
theorem c8_field_amended : ∀ (e : Emitter) (p : Vec),
    (e.radius < p.getDistance e.position → e.influenceOn p = none) ∧
    (p.getDistance e.position ≤ e.radius → p ≠ e.position →
      ∃ w : Vec, e.influenceOn p = some w ∧
        w.length = max 0 (e.strength - falloffAmount e (p.getDistance e.position)) ∧
        (e.repel = true → ∃ t : ℝ, 0 ≤ t ∧
          w = ⟨(p.x - e.position.x) * t, (p.y - e.position.y) * t⟩) ∧
        (e.repel = false → ∃ t : ℝ, 0 ≤ t ∧
          w = ⟨(e.position.x - p.x) * t, (e.position.y - p.y) * t⟩)) ∧
    Emitter.influenceOn eC8 ⟨110, 100⟩ = some ⟨40, 0⟩ := by
  intro e p
  refine ⟨?_, ?_, ?_⟩
  · intro h
    unfold Emitter.influenceOn
    rw [if_neg (not_le.mpr h)]
  · intro hle hne
    rw [influenceOn_in_range e p hle]
    cases hrep : e.repel
    · rw [if_neg Bool.false_ne_true]
      refine ⟨_, rfl, ?_, ?_, ?_⟩
      · exact length_direction_scale _ _ _ (le_max_left _ _) (Ne.symm hne)
      · intro h
        exact absurd h Bool.false_ne_true
      · intro _
        exact getDirectionTo_scale_form p e.position _ (le_max_left _ _) (Ne.symm hne)
    · rw [if_pos rfl]
      refine ⟨_, rfl, ?_, ?_, ?_⟩
      · exact length_direction_scale _ _ _ (le_max_left _ _) hne
      · intro _
        exact getDirectionTo_scale_form e.position p _ (le_max_left _ _) hne
      · intro h
        exact absurd h.symm Bool.false_ne_true
  · have hdist : Vec.getDistance ⟨(110 : ℝ), 100⟩ (⟨100, 100⟩ : Vec) = 10 :=
      getDistance_eval (by norm_num) (by norm_num)
    have hdir : Vec.normalize ⟨(10 : ℝ), 0⟩ = ⟨1, 0⟩ := by
      rw [normalize_eval (show (0 : ℝ) < 10 by norm_num) (by norm_num)]
      norm_num
    have hin : Vec.getDistance ⟨(110 : ℝ), 100⟩ (eC8.position) ≤ eC8.radius := by
      unfold eC8
      rw [hdist]
      norm_num
    rw [influenceOn_in_range eC8 ⟨110, 100⟩ hin]
    unfold eC8 falloffAmount
    simp only [hdist]
    simp only [if_true]
    unfold Vec.getDirectionTo
    norm_num [hdir, Vec.scale]

/-- Witness for c8_field_amended at the claim's scenario input. -/
theorem c8_field_amended_witness :
    Vec.getDistance ⟨110, 100⟩ eC8.position ≤ eC8.radius ∧
    (⟨110, 100⟩ : Vec) ≠ eC8.position ∧
    (∃ w : Vec, Emitter.influenceOn eC8 ⟨110, 100⟩ = some w ∧
      w.length = max 0 (eC8.strength - falloffAmount eC8 (Vec.getDistance ⟨110, 100⟩ eC8.position))) := by
  have h1 : Vec.getDistance ⟨(110 : ℝ), 100⟩ eC8.position ≤ eC8.radius := by
    unfold eC8
    rw [getDistance_eval (show (0 : ℝ) ≤ 10 by norm_num) (by norm_num)]
    norm_num
  have h2 : (⟨(110 : ℝ), 100⟩ : Vec) ≠ eC8.position := by
    unfold eC8
    intro h
    rw [Vec.mk.injEq] at h
    norm_num at h
  obtain ⟨w, hw1, hw2, -, -⟩ := (c8_field_amended eC8 ⟨110, 100⟩).2.1 h1 h2
  exact ⟨h1, h2, w, hw1, hw2⟩

/-- Concrete predator of the claim's predation scenario: at (0,0) with
body radius 10. -/
def c6Pred : Predator := ⟨⟨0, 0⟩, 10, 12, 10, 200, 40000, 200, ⟨800, 600⟩, ⟨1, 0⟩⟩

/-- Concrete biod of the claim's predation scenario: at (5,0) with body
radius 7. -/
def c6Agent : Biod := ⟨⟨5, 0⟩, 3, 10, 7, 40, 200, 20, ⟨800, 600⟩, [], ⟨1, 0⟩, none, none⟩

/-- The scenario agent is overlapped by the scenario predator:
distance 5 is below max(7, 10) = 10. -/
theorem c6Agent_eaten : eatenBy c6Agent [c6Pred] := by
  refine ⟨c6Pred, List.mem_singleton.mpr rfl, ?_⟩
  unfold c6Agent c6Pred
  rw [getDistance_eval (show (0 : ℝ) ≤ 5 by norm_num) (by norm_num)]
  norm_num

/-- C6: predation removes a biod only when some predator overlaps it;
the scan removes exactly the first overlapped biod and then stops, so at
most one biod is removed per tick; and in the concrete scenario the
single agent at (5,0) is eaten by the predator at (0,0) and the count
drops by exactly one. -/
theorem c6_predation_resolution :
    (∀ (fl : List Biod) (ps : List Predator),
      (∀ b ∈ fl, ¬ eatenBy b ps) → predation fl ps = fl) ∧
    (∀ (pre : List Biod) (b : Biod) (post : List Biod) (ps : List Predator),
      (∀ a ∈ pre, ¬ eatenBy a ps) → eatenBy b ps →
      predation (pre ++ b :: post) ps = pre ++ post) ∧
    (∀ (fl : List Biod) (ps : List Predator), fl.length ≤ (predation fl ps).length + 1) ∧
    predation [c6Agent] [c6Pred] = [] ∧
    [c6Agent].length - (predation [c6Agent] [c6Pred]).length = 1 := by
  have hnone : ∀ (fl : List Biod) (ps : List Predator),
      (∀ b ∈ fl, ¬ eatenBy b ps) → predation fl ps = fl := by
    intro fl ps h
    induction fl with
    | nil => rfl
    | cons b rest ih =>
      show (if eatenBy b ps then rest else b :: predation rest ps) = b :: rest
      rw [if_neg (h b (List.mem_cons_self b rest))]
      rw [ih fun a ha => h a (List.mem_cons_of_mem b ha)]
  have hfirst : ∀ (pre : List Biod) (b : Biod) (post : List Biod) (ps : List Predator),
      (∀ a ∈ pre, ¬ eatenBy a ps) → eatenBy b ps →
      predation (pre ++ b :: post) ps = pre ++ post := by
    intro pre b post ps hpre hb
    induction pre with
    | nil =>
      show (if eatenBy b ps then post else b :: predation post ps) = post
      rw [if_pos hb]
    | cons a pre ih =>
      show (if eatenBy a ps then pre ++ b :: post else a :: predation (pre ++ b :: post) ps) =
        a :: (pre ++ post)
      rw [if_neg (hpre a (List.mem_cons_self a pre))]
      rw [ih fun x hx => hpre x (List.mem_cons_of_mem a hx)]
  have hlen : ∀ (fl : List Biod) (ps : List Predator),
      fl.length ≤ (predation fl ps).length + 1 := by
    intro fl ps
    induction fl with
    | nil => simp
    | cons b rest ih =>
      show (b :: rest).length ≤ (if eatenBy b ps then rest else b :: predation rest ps).length + 1
      by_cases h : eatenBy b ps
      · rw [if_pos h]
        simp
      · rw [if_neg h]
        simp only [List.length_cons]
        omega
  have hscen : predation [c6Agent] [c6Pred] = [] := by
    show (if eatenBy c6Agent [c6Pred] then ([] : List Biod) else c6Agent :: predation [] [c6Pred]) = []
    rw [if_pos c6Agent_eaten]
  exact ⟨hnone, hfirst, hlen, hscen, by rw [hscen]; rfl⟩

/-- Witness for c6_predation_resolution: the first-overlap removal rule
applied at the concrete scenario. -/
theorem c6_predation_resolution_witness :
    eatenBy c6Agent [c6Pred] ∧ predation ([] ++ c6Agent :: []) [c6Pred] = [] ++ [] := by
  exact ⟨c6Agent_eaten,
    c6_predation_resolution.2.1 [] c6Agent [] [c6Pred] (by intro a ha; cases ha) c6Agent_eaten⟩

/-- Cosine of -1 radian is positive, since 1 is below pi/2. -/
theorem cos_neg_one_pos : 0 < Real.cos (-1) := by
  rw [Real.cos_neg]
  apply Real.cos_pos_of_mem_Ioo
  rw [Set.mem_Ioo]
  constructor
  · have := Real.pi_gt_three
    linarith
  · have := Real.pi_gt_three
    linarith

/-- Concrete biod A of the forward-vision analysis: at the origin,
heading along positive x, sight radius 200. -/
def c1A : Biod := ⟨⟨0, 0⟩, 3, 10, 7, 40, 200, 20, ⟨800, 600⟩, [], ⟨1, 0⟩, none, none⟩

/-- Concrete biod B of the forward-vision analysis: ten units directly
behind A. -/
def c1B : Biod := ⟨⟨-10, 0⟩, 3, 10, 7, 40, 200, 20, ⟨800, 600⟩, [], ⟨0, 1⟩, none, none⟩

/-- Direction from the origin to the point (-10, 0). -/
theorem dir_origin_to_negten : (⟨(0 : ℝ), 0⟩ : Vec).getDirectionTo ⟨-10, 0⟩ = ⟨-1, 0⟩ := by
  unfold Vec.getDirectionTo
  rw [normalize_eval (show (0 : ℝ) < 10 by norm_num) (by norm_num)]
  norm_num

/-- C1: biod B, lying exactly behind biod A (mathematical dot product of
A's heading with the direction to B is -1 ≤ 0), is nevertheless selected
as a visible neighbor of A, because Vector.dot adds instead of
multiplying the y terms and the result is then wrapped in a cosine, so
the test reads cos(-1) > 0 and accepts B. -/
theorem c1_behind_neighbor_selected :
    neighborsOf [c1A, c1B] 0 = [c1B] ∧
    specDot c1A.heading (c1A.position.getDirectionTo c1B.position) = -1 ∧
    ((-1 : ℝ) ≤ 0) := by
  have hdist : Vec.getDistance (⟨-10, 0⟩ : Vec) ⟨0, 0⟩ = 10 :=
    getDistance_eval (by norm_num) (by norm_num)
  refine ⟨?_, ?_, by norm_num⟩
  · unfold neighborsOf
    rw [show ([c1A, c1B].getD 0 default) = c1A from rfl]
    show neighborsAux c1A 0 0 [c1A, c1B] = [c1B]
    unfold neighborsAux
    rw [if_neg (by rintro ⟨-, h, -⟩; exact h rfl)]
    unfold neighborsAux
    rw [if_pos ?_]
    · rfl
    refine ⟨?_, by norm_num, ?_⟩
    · unfold c1A c1B
      show Vec.getDistance ⟨-10, 0⟩ ⟨0, 0⟩ ≤ 200
      rw [hdist]
      norm_num
    · unfold c1A c1B
      show 0 < Real.cos (Vec.dot ⟨1, 0⟩ ((⟨0, 0⟩ : Vec).getDirectionTo ⟨-10, 0⟩))
      rw [dir_origin_to_negten]
      unfold Vec.dot
      norm_num [Real.cos_one_pos]
  · unfold c1A c1B specDot
    show (1 : ℝ) * ((⟨0, 0⟩ : Vec).getDirectionTo ⟨-10, 0⟩).x +
      0 * ((⟨0, 0⟩ : Vec).getDirectionTo ⟨-10, 0⟩).y = -1
    rw [dir_origin_to_negten]
    norm_num

/-- Concrete predator for the pursuit analysis: at the origin, heading
along positive x, sight radius 200. -/
def c7P : Predator := ⟨⟨0, 0⟩, 10, 12, 10, 200, 40000, 200, ⟨800, 600⟩, ⟨1, 0⟩⟩

/-- Concrete biod for the pursuit analysis: ten units directly behind
the predator. -/
def c7B : Biod := ⟨⟨-10, 0⟩, 3, 10, 7, 40, 200, 20, ⟨800, 600⟩, [], ⟨0, 1⟩, none, none⟩

/-- C7: the only agent is exactly behind the predator (mathematical dot
product -1 ≤ 0), so by the claim no agent qualifies and the desired
heading should stay (1,0); but the code's forward test computes
cos(Vector.dot) = cos(-1) > 0 (the miswritten dot plus the cosine wrap),
accepts the agent, and returns the direction (-1,0) toward it. -/
theorem c7_predator_pursuit_mismatch :
    Predator.calculateNewHeading c7P [c7B] = ⟨-1, 0⟩ ∧
    c7P.heading = ⟨1, 0⟩ ∧
    specDot c7P.heading (c7P.position.getDirectionTo c7B.position) ≤ 0 ∧
    Predator.calculateNewHeading c7P [c7B] ≠ c7P.heading := by
  have hdist : Vec.getDistance (⟨-10, 0⟩ : Vec) ⟨0, 0⟩ = 10 :=
    getDistance_eval (by norm_num) (by norm_num)
  have hmain : Predator.calculateNewHeading c7P [c7B] = ⟨-1, 0⟩ := by
    unfold Predator.calculateNewHeading c7P c7B
    rw [if_neg (by norm_num)]
    simp only [List.foldl_cons, List.foldl_nil]
    rw [hdist]
    rw [if_pos (by norm_num), if_pos ?_]
    · show Vec.getDirectionTo ⟨0, 0⟩ ⟨-10, 0⟩ = ⟨-1, 0⟩
      exact dir_origin_to_negten
    · rw [dir_origin_to_negten]
      unfold Vec.dot
      norm_num [Real.cos_one_pos]
  refine ⟨hmain, rfl, ?_, ?_⟩
  · show specDot ⟨1, 0⟩ ((⟨0, 0⟩ : Vec).getDirectionTo ⟨-10, 0⟩) ≤ 0
    rw [dir_origin_to_negten]
    unfold specDot
    norm_num
  · rw [hmain]
    show (⟨-1, 0⟩ : Vec) ≠ ⟨1, 0⟩
    intro h
    rw [Vec.mk.injEq] at h
    norm_num at h

/-- Concrete biod for the crowding analysis: at the origin, heading
along positive x, body radius 7, proximity radius 40, severity 20. -/
def c2Self : Biod := ⟨⟨0, 0⟩, 3, 10, 7, 40, 200, 20, ⟨800, 600⟩, [], ⟨1, 0⟩, none, none⟩

/-- Concrete crowding neighbor: thirty units straight ahead. -/
def c2Nb : Biod := ⟨⟨30, 0⟩, 3, 10, 7, 40, 200, 20, ⟨800, 600⟩, [], ⟨0, 1⟩, none, none⟩

/-- Direction from the origin to the point (30, 0). -/
theorem dir_origin_to_thirty : (⟨(0 : ℝ), 0⟩ : Vec).getDirectionTo ⟨30, 0⟩ = ⟨1, 0⟩ := by
  unfold Vec.getDirectionTo
  rw [normalize_eval (show (0 : ℝ) < 30 by norm_num) (by norm_num)]
  norm_num

/-- Direction from the point (30, 0) to the origin. -/
theorem dir_thirty_to_origin : (⟨(30 : ℝ), 0⟩ : Vec).getDirectionTo ⟨0, 0⟩ = ⟨-1, 0⟩ := by
  unfold Vec.getDirectionTo
  rw [normalize_eval (show (0 : ℝ) < 30 by norm_num) (by norm_num)]
  norm_num

/-- C2: the neighbor at (30,0) is a visible neighbor within the
proximity radius, but the code's repulsion contribution is (-580,0), of
magnitude 580 = distance(neighbor, unit direction point (1,0)) times
severity 20, because the radial-point scaling is discarded; the
spec's magnitude distance(neighbor, radialPoint (40,0)) times severity
is 200. -/
theorem c2_crowding_force_mismatch :
    neighborsOf [c2Self, c2Nb] 0 = [c2Nb] ∧
    Vec.getDistance c2Nb.position c2Self.position ≤ c2Self.proximityRadius ∧
    crowdContribution c2Self c2Nb = ⟨-580, 0⟩ ∧
    (⟨-580, 0⟩ : Vec).length = 580 ∧
    specCrowdForce c2Self c2Nb = 200 ∧
    (580 : ℝ) ≠ 200 := by
  have hdist30 : Vec.getDistance (⟨30, 0⟩ : Vec) ⟨0, 0⟩ = 30 :=
    getDistance_eval (by norm_num) (by norm_num)
  refine ⟨?_, ?_, ?_, ?_, ?_, by norm_num⟩
  · unfold neighborsOf
    rw [show ([c2Self, c2Nb].getD 0 default) = c2Self from rfl]
    show neighborsAux c2Self 0 0 [c2Self, c2Nb] = [c2Nb]
    unfold neighborsAux
    rw [if_neg (by rintro ⟨-, h, -⟩; exact h rfl)]
    unfold neighborsAux
    rw [if_pos ?_]
    · rfl
    refine ⟨?_, by norm_num, ?_⟩
    · unfold c2Self c2Nb
      show Vec.getDistance ⟨30, 0⟩ ⟨0, 0⟩ ≤ 200
      rw [hdist30]
      norm_num
    · unfold c2Self c2Nb
      show 0 < Real.cos (Vec.dot ⟨1, 0⟩ ((⟨0, 0⟩ : Vec).getDirectionTo ⟨30, 0⟩))
      rw [dir_origin_to_thirty]
      unfold Vec.dot
      norm_num [Real.cos_one_pos]
  · unfold c2Self c2Nb
    show Vec.getDistance ⟨30, 0⟩ ⟨0, 0⟩ ≤ 40
    rw [hdist30]
    norm_num
  · unfold crowdContribution c2Self c2Nb
    simp only
    rw [dir_origin_to_thirty, dir_thirty_to_origin]
    have hd29 : Vec.getDistance (⟨30, 0⟩ : Vec) ⟨1, 0⟩ = 29 :=
      getDistance_eval (by norm_num) (by norm_num)
    rw [hd29]
    rw [if_neg (by norm_num)]
    unfold Vec.scale
    norm_num
  · unfold Vec.length
    rw [sqrt_eval (show (0 : ℝ) ≤ 580 by norm_num) (by norm_num)]
  · unfold specCrowdForce specRadialPoint c2Self c2Nb
    simp only
    rw [dir_origin_to_thirty]
    rw [show ((⟨1, 0⟩ : Vec).scale 40).add ⟨0, 0⟩ = ⟨40, 0⟩ from by
      unfold Vec.scale Vec.add
      norm_num]
    rw [getDistance_eval (show (0 : ℝ) ≤ 10 by norm_num) (by norm_num)]
    norm_num

/-- Normalizing one third of a unit vector recovers the unit vector. -/
theorem normalize_third (v : Vec) (h : v.length = 1) :
    Vec.normalize ⟨v.x / 3, v.y / 3⟩ = v := by
  have h2 : (⟨v.x / 3, v.y / 3⟩ : Vec).length = 1 / 3 := by
    unfold Vec.length at h ⊢
    rw [show v.x / 3 * (v.x / 3) + v.y / 3 * (v.y / 3) =
      (v.x * v.x + v.y * v.y) / 9 by ring]
    have hnn : 0 ≤ v.x * v.x + v.y * v.y := by nlinarith [sq_nonneg v.x, sq_nonneg v.y]
    rw [show (9 : ℝ) = 3 ^ 2 by norm_num]
    rw [Real.sqrt_div hnn, h, Real.sqrt_sq (by norm_num : (0 : ℝ) ≤ 3)]
  unfold Vec.normalize
  rw [h2, if_pos (by norm_num : (1 : ℝ) / 3 ≠ 0)]
  have hx : v.x / 3 / (1 / 3) = v.x := by ring
  have hy : v.y / 3 / (1 / 3) = v.y := by ring
  calc (⟨v.x / 3 / (1 / 3), v.y / 3 / (1 / 3)⟩ : Vec) = ⟨v.x, v.y⟩ := by rw [hx, hy]
    _ = v := rfl

/-- C10: an agent with no visible neighbors and an empty emitter
accumulator, positioned away from the origin, is steered toward the
arena corner (0,0): the zero average-neighbor-position vector is fed to
getDirectionTo as if it were a real point, and every other steering term
vanishes, so the returned desired heading is the unit vector from the
agent's position toward (0,0). -/
theorem c10_isolated_agent_origin : ∀ (fl : List Biod) (k : ℕ),
    neighborsOf fl k = [] →
    (fl.getD k default).emitterInfluences = [] →
    (fl.getD k default).position ≠ ⟨0, 0⟩ →
    (Biod.calculateNewHeading fl k).1 =
      (fl.getD k default).position.getDirectionTo ⟨0, 0⟩ ∧
    ((Biod.calculateNewHeading fl k).1).length = 1 := by
  intro fl k hnb hemit hpos
  have hdir_len : ((fl.getD k default).position.getDirectionTo ⟨0, 0⟩).length = 1 := by
    unfold Vec.getDirectionTo
    exact Vec.length_normalize _ (diff_length_ne_zero (Ne.symm hpos))
  have hmain : (Biod.calculateNewHeading fl k).1 =
      (fl.getD k default).position.getDirectionTo ⟨0, 0⟩ := by
    simp only [Biod.calculateNewHeading, hnb, hemit, crowdingPass, crowdingStep, List.foldl_nil,
      List.length_nil, Nat.cast_zero, add_zero]
    norm_num [Vec.add, Vec.normalize_zero_vec]
    simp only [List.getD_eq_getElem?_getD] at hdir_len
    exact normalize_third _ hdir_len
  exact ⟨hmain, hmain ▸ hdir_len⟩

/-- Concrete isolated biod at (3,4) with an empty accumulator. -/
def b10 : Biod := ⟨⟨3, 4⟩, 3, 10, 7, 40, 200, 20, ⟨800, 600⟩, [], ⟨1, 0⟩, none, none⟩

/-- Witness for c10_isolated_agent_origin: a lone biod at (3,4). -/
theorem c10_isolated_agent_origin_witness :
    neighborsOf [b10] 0 = [] ∧
    ([b10].getD 0 default).emitterInfluences = [] ∧
    ([b10].getD 0 default).position ≠ ⟨0, 0⟩ ∧
    (Biod.calculateNewHeading [b10] 0).1 =
      ([b10].getD 0 default).position.getDirectionTo ⟨0, 0⟩ := by
  have h1 : neighborsOf [b10] 0 = [] := by
    unfold neighborsOf
    rw [show ([b10].getD 0 default) = b10 from rfl]
    show neighborsAux b10 0 0 [b10] = []
    unfold neighborsAux
    rw [if_neg (by rintro ⟨-, h, -⟩; exact h rfl)]
    rfl
  have h2 : ([b10].getD 0 default).emitterInfluences = [] := rfl
  have h3 : ([b10].getD 0 default).position ≠ ⟨0, 0⟩ := by
    show (⟨3, 4⟩ : Vec) ≠ ⟨0, 0⟩
    intro h
    rw [Vec.mk.injEq] at h
    norm_num at h
  exact ⟨h1, h2, h3, (c10_isolated_agent_origin [b10] 0 h1 h2 h3).1⟩

/-- Heading stored by Biod.move, extracted from the definition. -/
theorem biodMove_heading (b : Biod) (n : Vec) :
    (b.move n).heading = Vec.fromDegrees (jsMod (b.heading.toDegrees +
      moveRotation b.turnSpeed n.toDegrees b.heading.toDegrees + 360) 360) := rfl

/-- Heading stored by Predator.move, extracted from the definition. -/
theorem predMove_heading (p : Predator) (n : Vec) (fl : List Biod) :
    ((p.move n fl).1).heading = Vec.fromDegrees (jsMod (p.heading.toDegrees +
      moveRotation p.turnSpeed n.toDegrees p.heading.toDegrees + 360) 360) := rfl

/-- Biod.move reads its newHeading argument only through toDegrees. -/
theorem biodMove_congr (b : Biod) {n1 n2 : Vec} (h : n1.toDegrees = n2.toDegrees) :
    b.move n1 = b.move n2 := by
  unfold Biod.move
  rw [h]

/-- Predator.move reads its newHeading argument only through
toDegrees. -/
theorem predMove_congr (p : Predator) (fl : List Biod) {n1 n2 : Vec}
    (h : n1.toDegrees = n2.toDegrees) :
    p.move n1 fl = p.move n2 fl := by
  unfold Predator.move
  rw [h]

/-- C3 (amended): normalizing the zero vector is the identity (and more
generally normalize is the identity on any zero-length vector), so the
zero combined steering vector is returned unchanged and no division by
zero occurs; but the agent does not keep its previous heading: move
reads the desired heading through toDegrees, and atan2(0,0) = 0 makes
the zero vector indistinguishable from the unit vector (1,0), so the
agent turns toward heading angle 0 at the bounded rate. -/
theorem c3_zero_heading_amended :
    Vec.normalize ⟨0, 0⟩ = ⟨0, 0⟩ ∧
    (∀ v : Vec, v.length = 0 → v.normalize = v) ∧
    (∀ b : Biod, b.move ⟨0, 0⟩ = b.move ⟨1, 0⟩) ∧
    (∀ (p : Predator) (fl : List Biod), p.move ⟨0, 0⟩ fl = p.move ⟨1, 0⟩ fl) := by
  refine ⟨Vec.normalize_zero_vec, ?_, ?_, ?_⟩
  · intro v h
    unfold Vec.normalize
    rw [if_neg (by rw [h]; exact not_not_intro rfl)]
  · intro b
    exact biodMove_congr b (by rw [toDegrees_zeroVec, toDegrees_unitX])
  · intro p fl
    exact predMove_congr p fl (by rw [toDegrees_zeroVec, toDegrees_unitX])

/-- Witness for c3_zero_heading_amended at the zero vector and a
concrete biod. -/
theorem c3_zero_heading_amended_witness :
    (⟨0, 0⟩ : Vec).length = 0 ∧ Vec.normalize ⟨0, 0⟩ = ⟨0, 0⟩ ∧
    b10.move ⟨0, 0⟩ = b10.move ⟨1, 0⟩ := by
  have hlen : (⟨0, 0⟩ : Vec).length = 0 := (Vec.length_eq_zero_iff _).mpr rfl
  exact ⟨hlen, c3_zero_heading_amended.2.1 ⟨0, 0⟩ hlen, c3_zero_heading_amended.2.2.1 b10⟩

/-- Concrete biod for the zero-steering counterexample: at the origin
(so the average-position direction is the zero vector), heading (0,1),
turn speed 10. -/
def b3 : Biod := ⟨⟨0, 0⟩, 3, 10, 7, 40, 200, 20, ⟨800, 600⟩, [], ⟨0, 1⟩, none, none⟩

/-- C3 counterexample: for the isolated biod b3 at the origin the
combined steering vector is the zero vector, yet one move call changes
the heading: the zero desired heading is read as angle 0 and the biod
turns 10 degrees toward it, so the heading does not stay (0,1). -/
theorem c3_zero_heading_counterexample :
    (Biod.calculateNewHeading [b3] 0).1 = ⟨0, 0⟩ ∧
    (b3.move ⟨0, 0⟩).heading ≠ b3.heading := by
  have hpi1 := Real.pi_gt_d2
  have hpi2 := Real.pi_lt_d2
  constructor
  · have hnb : neighborsOf [b3] 0 = [] := by
      unfold neighborsOf
      rw [show ([b3].getD 0 default) = b3 from rfl]
      show neighborsAux b3 0 0 [b3] = []
      unfold neighborsAux
      rw [if_neg (by rintro ⟨-, h, -⟩; exact h rfl)]
      rfl
    have hemit : ([b3].getD 0 default).emitterInfluences = [] := rfl
    simp only [Biod.calculateNewHeading, hnb, hemit, crowdingPass, crowdingStep, List.foldl_nil,
      List.length_nil, Nat.cast_zero, add_zero]
    norm_num [Vec.add, Vec.normalize_zero_vec, Vec.getDirectionTo, b3]
  · rw [biodMove_heading]
    rw [show b3.heading = ⟨0, 1⟩ from rfl, show b3.turnSpeed = 10 from rfl]
    rw [toDegrees_unitY, toDegrees_zeroVec]
    have hc_lb : (89.9 : ℝ) < π / 2 * radsToDegs := by
      unfold radsToDegs
      nlinarith
    have hc_ub : π / 2 * radsToDegs < 90.3 := by
      unfold radsToDegs
      nlinarith
    set c := π / 2 * radsToDegs with hc
    have hrot : moveRotation 10 0 c = -10 := by
      unfold moveRotation
      have hleft : jsMod (0 - c + 360) 360 = 360 - c := by
        rw [show (0 : ℝ) - c + 360 = 360 - c by ring]
        exact jsMod_self_eval (by norm_num) (by linarith) (by linarith)
      have hright : jsMod (c - 0 + 360) 360 = c := by
        rw [show c - 0 + 360 = c + 360 by ring]
        rw [jsMod_shift_eval (by norm_num) (by linarith) (by linarith)]
        ring
      simp only
      rw [hleft, hright]
      rw [if_neg (by push_neg; linarith)]
      rw [min_eq_left (by linarith)]
    rw [hrot]
    have hd : jsMod (c + -10 + 360) 360 = c - 10 := by
      rw [show c + -10 + 360 = c - 10 + 360 by ring]
      rw [jsMod_shift_eval (by norm_num) (by linarith) (by linarith)]
      ring
    rw [hd]
    unfold Vec.fromDegrees Vec.fromAngle
    intro hcontra
    rw [Vec.mk.injEq] at hcontra
    have hcos : 0 < Real.cos ((c - 10) * degsToRads) := by
      apply Real.cos_pos_of_mem_Ioo
      rw [Set.mem_Ioo]
      unfold degsToRads
      constructor
      · nlinarith
      · nlinarith
    rw [hcontra.1] at hcos
    exact lt_irrefl 0 hcos

/-- X coordinate stored by Biod.move, extracted from the definition. -/
theorem biodMove_position_x (b : Biod) (n : Vec) :
    (b.move n).position.x =
      if jsMod (b.position.x + ((b.move n).heading).x * b.speed) b.sandboxDimensions.x < 0
      then b.sandboxDimensions.x
      else jsMod (b.position.x + ((b.move n).heading).x * b.speed) b.sandboxDimensions.x := rfl

/-- Y coordinate stored by Biod.move, extracted from the definition. -/
theorem biodMove_position_y (b : Biod) (n : Vec) :
    (b.move n).position.y =
      if jsMod (b.position.y + ((b.move n).heading).y * b.speed) b.sandboxDimensions.y < 0
      then b.sandboxDimensions.y
      else jsMod (b.position.y + ((b.move n).heading).y * b.speed) b.sandboxDimensions.y := rfl

/-- X coordinate stored by Predator.move, extracted from the
definition. -/
theorem predMove_position_x (p : Predator) (n : Vec) (fl : List Biod) :
    ((p.move n fl).1).position.x =
      if jsMod (p.position.x + (((p.move n fl).1).heading).x * p.speed) p.sandboxDimensions.x < 0
      then p.sandboxDimensions.x
      else jsMod (p.position.x + (((p.move n fl).1).heading).x * p.speed)
        p.sandboxDimensions.x := rfl

/-- Y coordinate stored by Predator.move, extracted from the
definition. -/
theorem predMove_position_y (p : Predator) (n : Vec) (fl : List Biod) :
    ((p.move n fl).1).position.y =
      if jsMod (p.position.y + (((p.move n fl).1).heading).y * p.speed) p.sandboxDimensions.y < 0
      then p.sandboxDimensions.y
      else jsMod (p.position.y + (((p.move n fl).1).heading).y * p.speed)
        p.sandboxDimensions.y := rfl

/-- Bounds for one wrapped coordinate: the remainder followed by the
negative-value fixup lands in the closed interval [0, d]. -/
theorem wrap_bounds {d : ℝ} (a : ℝ) (hd : 0 < d) :
    0 ≤ (if jsMod a d < 0 then d else jsMod a d) ∧
    (if jsMod a d < 0 then d else jsMod a d) ≤ d := by
  by_cases h : jsMod a d < 0
  · rw [if_pos h]
    exact ⟨hd.le, le_rfl⟩
  · rw [if_neg h]
    push_neg at h
    refine ⟨h, ?_⟩
    rcases lt_or_le a 0 with ha | ha
    · exact le_trans (jsMod_bounds_neg hd ha).2 hd.le
    · exact (jsMod_bounds_nonneg hd ha).2.le

/-- C4 (amended): after any move of a biod or predator with positive
arena dimensions, each position coordinate lies in the closed interval
[0, arenaSize]; the coordinate can equal arenaSize exactly when the
remainder was negative, because the fixup assigns the dimension itself
rather than adding it (see the counterexample), so the half-open
interval of the claim does not hold. -/
theorem c4_wrap_amended : ∀ (b : Biod) (p : Predator) (n m : Vec) (fl : List Biod),
    0 < b.sandboxDimensions.x → 0 < b.sandboxDimensions.y →
    0 < p.sandboxDimensions.x → 0 < p.sandboxDimensions.y →
    (0 ≤ (b.move n).position.x ∧ (b.move n).position.x ≤ b.sandboxDimensions.x) ∧
    (0 ≤ (b.move n).position.y ∧ (b.move n).position.y ≤ b.sandboxDimensions.y) ∧
    (0 ≤ ((p.move m fl).1).position.x ∧
      ((p.move m fl).1).position.x ≤ p.sandboxDimensions.x) ∧
    (0 ≤ ((p.move m fl).1).position.y ∧
      ((p.move m fl).1).position.y ≤ p.sandboxDimensions.y) := by
  intro b p n m fl hbx hby hpx hpy
  rw [biodMove_position_x, biodMove_position_y, predMove_position_x,
    predMove_position_y]
  exact ⟨wrap_bounds _ hbx, wrap_bounds _ hby, wrap_bounds _ hpx, wrap_bounds _ hpy⟩

/-- Witness for c4_wrap_amended at a concrete biod and predator. -/
theorem c4_wrap_amended_witness :
    (0 : ℝ) < b10.sandboxDimensions.x ∧
    (0 ≤ (b10.move ⟨1, 0⟩).position.x ∧
      (b10.move ⟨1, 0⟩).position.x ≤ b10.sandboxDimensions.x) := by
  refine ⟨by norm_num [b10], ?_⟩
  exact (c4_wrap_amended b10 c6Pred ⟨1, 0⟩ ⟨1, 0⟩ []
    (by norm_num [b10]) (by norm_num [b10]) (by norm_num [c6Pred]) (by norm_num [c6Pred])).1

/-- Concrete biod for the wrap counterexample: at (1,5) heading along
negative x with speed 3, in the 800 by 600 sandbox. -/
def b4 : Biod := ⟨⟨1, 5⟩, 3, 10, 7, 40, 200, 20, ⟨800, 600⟩, [], ⟨-1, 0⟩, none, none⟩

/-- C4 counterexample: a biod just inside the left edge moving left ends
the move with position.x equal to 800, the arena width itself, because a
negative remainder is replaced by the dimension rather than wrapped into
[0, 800); the claimed strict bound position.x < arenaSize.x fails. -/
theorem c4_wrap_counterexample :
    (b4.move ⟨-1, 0⟩).position.x = 800 ∧
    ¬ ((b4.move ⟨-1, 0⟩).position.x < b4.sandboxDimensions.x) := by
  have hpi1 := Real.pi_gt_d2
  have hpi2 := Real.pi_lt_d2
  have hKk_lt : radsToDegs * degsToRads < 1 := by
    unfold radsToDegs degsToRads
    norm_num
  have hKk_big : (0.9 : ℝ) < radsToDegs * degsToRads := by
    unfold radsToDegs degsToRads
    norm_num
  have hhead : (b4.move ⟨-1, 0⟩).heading =
      ⟨Real.cos (π * radsToDegs * degsToRads), Real.sin (π * radsToDegs * degsToRads)⟩ := by
    rw [biodMove_heading]
    rw [show b4.heading = ⟨-1, 0⟩ from rfl, show b4.turnSpeed = 10 from rfl]
    rw [toDegrees_negX]
    have hrot : moveRotation 10 (π * radsToDegs) (π * radsToDegs) = 0 := by
      unfold moveRotation
      simp only [sub_self, zero_add]
      rw [jsMod_shift_eval (by norm_num) (by norm_num) (by norm_num)]
      norm_num
    rw [hrot]
    have hπK_lb : (179.8 : ℝ) < π * radsToDegs := by
      unfold radsToDegs
      nlinarith
    have hπK_ub : π * radsToDegs < 180.5 := by
      unfold radsToDegs
      nlinarith
    have hd : jsMod (π * radsToDegs + 0 + 360) 360 = π * radsToDegs := by
      rw [show π * radsToDegs + 0 + 360 = π * radsToDegs + 360 by ring]
      rw [jsMod_shift_eval (by norm_num) (by linarith) (by linarith)]
      ring
    rw [hd]
    unfold Vec.fromDegrees Vec.fromAngle
    rfl
  have hcos : Real.cos (π * radsToDegs * degsToRads) ≤ -(1 / 2) := by
    have hδpos : 0 ≤ π - π * radsToDegs * degsToRads := by nlinarith
    have hδsmall : π - π * radsToDegs * degsToRads ≤ π / 3 := by nlinarith
    have h1 : Real.cos (π / 3) ≤ Real.cos (π - π * radsToDegs * degsToRads) :=
      Real.cos_le_cos_of_nonneg_of_le_pi hδpos (by linarith [Real.pi_pos]) hδsmall
    rw [Real.cos_pi_div_three] at h1
    have h2 := Real.cos_pi_sub (π - π * radsToDegs * degsToRads)
    rw [show π - (π - π * radsToDegs * degsToRads) = π * radsToDegs * degsToRads by ring] at h2
    rw [h2]
    linarith
  have hposx : (b4.move ⟨-1, 0⟩).position.x = 800 := by
    rw [biodMove_position_x, hhead]
    rw [show b4.position.x = 1 from rfl, show b4.speed = 3 from rfl,
      show b4.sandboxDimensions.x = 800 from rfl]
    show (if jsMod (1 + Real.cos (π * radsToDegs * degsToRads) * 3) 800 < 0 then (800 : ℝ)
      else jsMod (1 + Real.cos (π * radsToDegs * degsToRads) * 3) 800) = 800
    have hcoslb := Real.neg_one_le_cos (π * radsToDegs * degsToRads)
    have hneg : 1 + Real.cos (π * radsToDegs * degsToRads) * 3 < 0 := by nlinarith
    have hgt : (-800 : ℝ) < 1 + Real.cos (π * radsToDegs * degsToRads) * 3 := by nlinarith
    rw [jsMod_neg_eval (by norm_num) hgt hneg]
    rw [if_pos hneg]
  refine ⟨hposx, ?_⟩
  rw [hposx, show b4.sandboxDimensions.x = 800 from rfl]
  norm_num

/-- moveRotation written without let bindings. -/
theorem moveRotation_eq (turnSpeed newAngle currentAngle : ℝ) :
    moveRotation turnSpeed newAngle currentAngle =
      if jsMod (newAngle - currentAngle + 360) 360 < jsMod (currentAngle - newAngle + 360) 360
      then min turnSpeed (jsMod (newAngle - currentAngle + 360) 360)
      else -(min turnSpeed (jsMod (currentAngle - newAngle + 360) 360)) := rfl

/-- Concrete biod for the turn-rate counterexample: heading (0,-1)
(measured 270 degrees by the code), turn speed 10. -/
def b5 : Biod := ⟨⟨400, 300⟩, 3, 10, 7, 40, 200, 20, ⟨800, 600⟩, [], ⟨0, -1⟩, none, none⟩

/-- C5 counterexample: biod b5 turns clockwise by the full turn speed of
10 degrees, but remeasuring its heading angle through toDegrees yields a
change strictly greater than 10 degrees, because the two conversion
literals multiply to slightly less than 1, so the stored current angle
shrinks when it is read back. -/
theorem c5_turn_rate_counterexample :
    b5.turnSpeed < circDistDeg ((b5.move ⟨-1, 0⟩).heading.toDegrees) (b5.heading.toDegrees) := by
  have hpi1 := Real.pi_gt_d2
  have hpi2 := Real.pi_lt_d2
  have hs1 : 0 < 1 - degsToRads * radsToDegs := by
    unfold degsToRads radsToDegs
    norm_num
  have hs2 : 1 - degsToRads * radsToDegs < 1 / 100000000 := by
    unfold degsToRads radsToDegs
    norm_num
  have hc : b5.heading.toDegrees = 3 * π / 2 * radsToDegs := by
    rw [show b5.heading = ⟨0, -1⟩ from rfl]
    exact toDegrees_negY
  have hcb1 : (269.8 : ℝ) < 3 * π / 2 * radsToDegs := by
    unfold radsToDegs
    nlinarith
  have hcb2 : 3 * π / 2 * radsToDegs < 270.8 := by
    unfold radsToDegs
    nlinarith
  have hhead : (b5.move ⟨-1, 0⟩).heading = Vec.fromDegrees (3 * π / 2 * radsToDegs - 10) := by
    rw [biodMove_heading]
    rw [show b5.heading = ⟨0, -1⟩ from rfl, show b5.turnSpeed = 10 from rfl]
    rw [toDegrees_negY, toDegrees_negX]
    have hrot : moveRotation 10 (π * radsToDegs) (3 * π / 2 * radsToDegs) = -10 := by
      rw [moveRotation_eq]
      have hleft : jsMod (π * radsToDegs - 3 * π / 2 * radsToDegs + 360) 360 =
          360 - π / 2 * radsToDegs := by
        rw [show π * radsToDegs - 3 * π / 2 * radsToDegs + 360 =
          360 - π / 2 * radsToDegs by ring]
        exact jsMod_self_eval (by norm_num) (by unfold radsToDegs; nlinarith)
          (by unfold radsToDegs; nlinarith)
      have hright : jsMod (3 * π / 2 * radsToDegs - π * radsToDegs + 360) 360 =
          π / 2 * radsToDegs := by
        rw [show 3 * π / 2 * radsToDegs - π * radsToDegs + 360 =
          π / 2 * radsToDegs + 360 by ring]
        rw [jsMod_shift_eval (by norm_num) (by unfold radsToDegs; nlinarith)
          (by unfold radsToDegs; nlinarith)]
        ring
      rw [hleft, hright]
      rw [if_neg (by push_neg; unfold radsToDegs; nlinarith)]
      rw [min_eq_left (by unfold radsToDegs; nlinarith)]
    rw [hrot]
    congr 1
    rw [show 3 * π / 2 * radsToDegs + -10 + 360 = 3 * π / 2 * radsToDegs - 10 + 360 by ring]
    rw [jsMod_shift_eval (by norm_num) (by nlinarith) (by nlinarith)]
    ring
  rw [hhead, hc, show b5.turnSpeed = 10 from rfl]
  rw [toDegrees_fromDegrees (by nlinarith) (by nlinarith)]
  unfold circDistDeg
  have hprod : 0 < (3 * π / 2 * radsToDegs - 10) * (1 - degsToRads * radsToDegs) := by
    apply mul_pos (by linarith) hs1
  have hprod2 : (3 * π / 2 * radsToDegs - 10) * (1 - degsToRads * radsToDegs) < 1 := by
    nlinarith
  have hdiff : (3 * π / 2 * radsToDegs - 10) * (degsToRads * radsToDegs) -
      3 * π / 2 * radsToDegs < -10 := by nlinarith
  have hdiff2 : -11 < (3 * π / 2 * radsToDegs - 10) * (degsToRads * radsToDegs) -
      3 * π / 2 * radsToDegs := by nlinarith
  rw [abs_of_neg (by linarith)]
  rw [min_eq_left (by linarith)]
  linarith

/-- The rotation amount is bounded by the turn speed whenever the two
measured angles lie in [0, 360). -/
theorem moveRotation_abs_le {ts nA c : ℝ} (hts : 0 ≤ ts)
    (hc0 : 0 ≤ c) (hc1 : c < 360) (hn0 : 0 ≤ nA) (hn1 : nA < 360) :
    |moveRotation ts nA c| ≤ ts := by
  rw [moveRotation_eq]
  have hl := jsMod_bounds_nonneg (show (0 : ℝ) < 360 by norm_num)
    (show 0 ≤ nA - c + 360 by linarith)
  have hr := jsMod_bounds_nonneg (show (0 : ℝ) < 360 by norm_num)
    (show 0 ≤ c - nA + 360 by linarith)
  split
  · rw [abs_of_nonneg (le_min hts hl.1)]
    exact min_le_left _ _
  · rw [abs_neg, abs_of_nonneg (le_min hts hr.1)]
    exact min_le_left _ _

/-- The rotation amount lies strictly between -360 and 360. -/
theorem moveRotation_range {ts nA c : ℝ} (hts : 0 ≤ ts)
    (hc0 : 0 ≤ c) (hc1 : c < 360) (hn0 : 0 ≤ nA) (hn1 : nA < 360) :
    -360 < moveRotation ts nA c ∧ moveRotation ts nA c < 360 := by
  rw [moveRotation_eq]
  have hl := jsMod_bounds_nonneg (show (0 : ℝ) < 360 by norm_num)
    (show 0 ≤ nA - c + 360 by linarith)
  have hr := jsMod_bounds_nonneg (show (0 : ℝ) < 360 by norm_num)
    (show 0 ≤ c - nA + 360 by linarith)
  split
  · have h1 : 0 ≤ min ts (jsMod (nA - c + 360) 360) := le_min hts hl.1
    have h2 : min ts (jsMod (nA - c + 360) 360) ≤ jsMod (nA - c + 360) 360 := min_le_right _ _
    constructor <;> linarith [hl.2]
  · have h1 : 0 ≤ min ts (jsMod (c - nA + 360) 360) := le_min hts hr.1
    have h2 : min ts (jsMod (c - nA + 360) 360) ≤ jsMod (c - nA + 360) 360 := min_le_right _ _
    constructor <;> linarith [hr.2]

/-- The wraparound distance is bounded by the distance to any
360-degree translate. -/
theorem circDistDeg_le_abs (a c : ℝ) (j : ℤ) :
    circDistDeg a c ≤ |a - c - 360 * (j : ℝ)| := by
  unfold circDistDeg
  rcases eq_or_ne j 0 with rfl | hj
  · simp [min_le_left |a - c| (360 - |a - c|)]
  · have hj1 : (1 : ℝ) ≤ |(j : ℝ)| := by
      rw [← Int.cast_abs]
      exact_mod_cast Int.one_le_abs hj
    have h1 : |(360 : ℝ) * j| - |a - c| ≤ |a - c - 360 * j| := by
      have h := abs_sub_abs_le_abs_sub ((360 : ℝ) * j) (a - c)
      rw [abs_sub_comm ((360 : ℝ) * j) (a - c)] at h
      linarith
    have h2 : (360 : ℝ) ≤ |(360 : ℝ) * j| := by
      rw [abs_mul, abs_of_nonneg (show (0 : ℝ) ≤ 360 by norm_num)]
      nlinarith
    have h3 := min_le_right |a - c| (360 - |a - c|)
    linarith

/-- Measured heading-angle change after one bounded turn: the turn speed
plus at most one microdegree of conversion error, the latter coming from
the product of the two conversion literals being slightly below 1. -/
theorem turn_measured_le {ts nA c : ℝ} (hts : 0 ≤ ts)
    (hc0 : 0 ≤ c) (hc1 : c < 360) (hn0 : 0 ≤ nA) (hn1 : nA < 360) :
    circDistDeg ((Vec.fromDegrees (jsMod (c + moveRotation ts nA c + 360) 360)).toDegrees) c
      ≤ ts + 1 / 1000000 := by
  have hs1 : 0 < 1 - degsToRads * radsToDegs := by
    unfold degsToRads radsToDegs
    norm_num
  have hs0 : 0 ≤ degsToRads * radsToDegs := by
    unfold degsToRads radsToDegs
    norm_num
  have habs := moveRotation_abs_le hts hc0 hc1 hn0 hn1
  have hrange := moveRotation_range hts hc0 hc1 hn0 hn1
  set r := moveRotation ts nA c with hr
  have hD0 : 0 ≤ c + r + 360 := by linarith [hrange.1]
  have hd := jsMod_bounds_nonneg (show (0 : ℝ) < 360 by norm_num) hD0
  obtain ⟨j, hj⟩ := jsMod_sub_int (c + r + 360) 360
  set d := jsMod (c + r + 360) 360 with hdd
  have hdt : d = c + r - 360 * ((j - 1 : ℤ) : ℝ) := by
    rw [hj]
    push_cast
    ring
  have htb : |((j - 1 : ℤ) : ℝ)| ≤ 1 := by
    have h2 : |((j - 1 : ℤ) : ℝ)| < 2 := by
      rw [abs_lt]
      constructor <;> nlinarith [hrange.1, hrange.2, hd.1, hd.2, hdt]
    have h3 : |(j - 1 : ℤ)| < 2 := by
      rw [← Int.cast_abs] at h2
      exact_mod_cast h2
    have h4 : |(j - 1 : ℤ)| ≤ 1 := by omega
    rw [← Int.cast_abs]
    exact_mod_cast h4
  rw [toDegrees_fromDegrees hd.1 hd.2]
  have hkey := circDistDeg_le_abs (d * (degsToRads * radsToDegs)) c (-(j - 1))
  have heq : d * (degsToRads * radsToDegs) - c - 360 * ((-(j - 1) : ℤ) : ℝ) =
      r * (degsToRads * radsToDegs) - c * (1 - degsToRads * radsToDegs) +
      360 * ((j - 1 : ℤ) : ℝ) * (1 - degsToRads * radsToDegs) := by
    rw [hdt]
    push_cast
    ring
  rw [heq] at hkey
  have hb1 : |r * (degsToRads * radsToDegs)| ≤ ts := by
    rw [abs_mul, abs_of_nonneg hs0]
    nlinarith [abs_nonneg r]
  have hb2 : |c * (1 - degsToRads * radsToDegs)| ≤ 360 * (1 - degsToRads * radsToDegs) := by
    rw [abs_mul, abs_of_nonneg hs1.le, abs_of_nonneg hc0]
    nlinarith
  have hb3 : |360 * ((j - 1 : ℤ) : ℝ) * (1 - degsToRads * radsToDegs)| ≤
      360 * (1 - degsToRads * radsToDegs) := by
    rw [abs_mul, abs_mul, abs_of_nonneg (show (0 : ℝ) ≤ 360 by norm_num),
      abs_of_nonneg hs1.le]
    nlinarith
  have htri : |r * (degsToRads * radsToDegs) - c * (1 - degsToRads * radsToDegs) +
      360 * ((j - 1 : ℤ) : ℝ) * (1 - degsToRads * radsToDegs)| ≤
      |r * (degsToRads * radsToDegs)| + |c * (1 - degsToRads * radsToDegs)| +
      |360 * ((j - 1 : ℤ) : ℝ) * (1 - degsToRads * radsToDegs)| := by
    have ha := abs_add (r * (degsToRads * radsToDegs) - c * (1 - degsToRads * radsToDegs))
      (360 * ((j - 1 : ℤ) : ℝ) * (1 - degsToRads * radsToDegs))
    have hsub := abs_sub (r * (degsToRads * radsToDegs)) (c * (1 - degsToRads * radsToDegs))
    linarith
  have hfinal : (720 : ℝ) * (1 - degsToRads * radsToDegs) ≤ 1 / 1000000 := by
    unfold degsToRads radsToDegs
    norm_num
  linarith [hkey, htri, hb1, hb2, hb3]

/-- C5 (amended): for every biod and predator with nonnegative turn
speed, one move turns by a degree-space rotation amount of magnitude at
most maxTurnRatePerTick, chosen by the shorter-arc comparison embedded
in moveRotation; the heading angle remeasured through toDegrees changes
by at most maxTurnRatePerTick plus one microdegree, the slack coming
from the conversion literals 0.0174532925 and 57.2957795 whose product
is slightly below 1 (the counterexample shows the exact bound of the
claim fails by about half a microdegree). -/
theorem c5_turn_rate_amended : ∀ (b : Biod) (p : Predator) (n m : Vec) (fl : List Biod),
    0 ≤ b.turnSpeed → 0 ≤ p.turnSpeed →
    |moveRotation b.turnSpeed n.toDegrees b.heading.toDegrees| ≤ b.turnSpeed ∧
    circDistDeg ((b.move n).heading.toDegrees) (b.heading.toDegrees) ≤
      b.turnSpeed + 1 / 1000000 ∧
    |moveRotation p.turnSpeed m.toDegrees p.heading.toDegrees| ≤ p.turnSpeed ∧
    circDistDeg (((p.move m fl).1).heading.toDegrees) (p.heading.toDegrees) ≤
      p.turnSpeed + 1 / 1000000 := by
  intro b p n m fl hb hp
  refine ⟨?_, ?_, ?_, ?_⟩
  · exact moveRotation_abs_le hb (toDegrees_nonneg _) (toDegrees_lt_360 _)
      (toDegrees_nonneg _) (toDegrees_lt_360 _)
  · rw [biodMove_heading]
    exact turn_measured_le hb (toDegrees_nonneg _) (toDegrees_lt_360 _)
      (toDegrees_nonneg _) (toDegrees_lt_360 _)
  · exact moveRotation_abs_le hp (toDegrees_nonneg _) (toDegrees_lt_360 _)
      (toDegrees_nonneg _) (toDegrees_lt_360 _)
  · rw [predMove_heading]
    exact turn_measured_le hp (toDegrees_nonneg _) (toDegrees_lt_360 _)
      (toDegrees_nonneg _) (toDegrees_lt_360 _)

/-- Witness for c5_turn_rate_amended at a concrete biod and predator. -/
theorem c5_turn_rate_amended_witness :
    (0 : ℝ) ≤ b10.turnSpeed ∧ (0 : ℝ) ≤ c6Pred.turnSpeed ∧
    circDistDeg ((b10.move ⟨0, 1⟩).heading.toDegrees) (b10.heading.toDegrees) ≤
      b10.turnSpeed + 1 / 1000000 := by
  refine ⟨by norm_num [b10], by norm_num [c6Pred], ?_⟩
  exact (c5_turn_rate_amended b10 c6Pred ⟨0, 1⟩ ⟨0, 1⟩ []
    (by norm_num [b10]) (by norm_num [c6Pred])).2.1

/-- getD after setting a different index. -/
theorem getD_set_ne {α : Type} [Inhabited α] (l : List α) {i j : ℕ} (a : α) (h : i ≠ j) :
    (l.set i a).getD j default = l.getD j default := by
  rw [List.getD_eq_getElem?_getD, List.getD_eq_getElem?_getD, List.getElem?_set_ne h]

/-- getD after setting the same index, in bounds. -/
theorem getD_set_self {α : Type} [Inhabited α] (l : List α) {i : ℕ} (a : α) (h : i < l.length) :
    (l.set i a).getD i default = a := by
  rw [List.getD_eq_getElem?_getD, List.getElem?_set_self h]
  rfl

/-- The updated biod returned by calculateNewHeading keeps its
position. -/
theorem calc_snd_position (fl : List Biod) (k : ℕ) :
    ((Biod.calculateNewHeading fl k).2).position = (fl.getD k default).position := rfl

/-- The updated biod returned by calculateNewHeading keeps its
heading. -/
theorem calc_snd_heading (fl : List Biod) (k : ℕ) :
    ((Biod.calculateNewHeading fl k).2).heading = (fl.getD k default).heading := rfl

/-- The neighbor scan depends on the flock entries only through their
positions and headings. -/
theorem neighborsAux_congr (self : Biod) (k : ℕ) :
    ∀ (i : ℕ) (l1 l2 : List Biod),
    List.Forall₂ (fun a b => a.position = b.position ∧ a.heading = b.heading) l1 l2 →
    List.Forall₂ (fun a b => a.position = b.position ∧ a.heading = b.heading)
      (neighborsAux self k i l1) (neighborsAux self k i l2) := by
  intro i l1 l2 h
  induction h generalizing i with
  | nil =>
    unfold neighborsAux
    exact List.Forall₂.nil
  | cons hab htail ih =>
    rename_i a b t1 t2
    unfold neighborsAux
    rw [hab.1]
    by_cases hC : b.position.getDistance self.position ≤ self.sightRadius ∧ i ≠ k ∧
        0 < Real.cos (self.heading.dot (self.position.getDirectionTo b.position))
    · rw [if_pos hC, if_pos hC]
      exact List.Forall₂.cons hab (ih (i + 1))
    · rw [if_neg hC, if_neg hC]
      exact ih (i + 1)

/-- Pointwise position-and-heading agreement of equal-length lists gives
the elementwise relation. -/
theorem forall2_of_pointwise : ∀ (l1 l2 : List Biod), l1.length = l2.length →
    (∀ i, (l1.getD i default).position = (l2.getD i default).position ∧
          (l1.getD i default).heading = (l2.getD i default).heading) →
    List.Forall₂ (fun a b => a.position = b.position ∧ a.heading = b.heading) l1 l2 := by
  intro l1
  induction l1 with
  | nil =>
    intro l2 h _
    cases l2 with
    | nil => exact List.Forall₂.nil
    | cons b t => simp at h
  | cons a t1 ih =>
    intro l2 h hp
    cases l2 with
    | nil => simp at h
    | cons b t2 =>
      refine List.Forall₂.cons (hp 0) (ih t2 ?_ fun i => hp (i + 1))
      simpa using h

/-- The per-neighbor crowding contribution reads only the neighbor's
position. -/
theorem crowdContribution_congr (self : Biod) {a b : Biod} (h : a.position = b.position) :
    crowdContribution self a = crowdContribution self b := by
  unfold crowdContribution
  rw [h]

/-- The crowding step reads the neighbor only through its position and
heading. -/
theorem crowdingStep_congr (self : Biod) (acc : Vec × ℕ × Vec × Vec) {a b : Biod}
    (h1 : a.position = b.position) (h2 : a.heading = b.heading) :
    crowdingStep self acc a = crowdingStep self acc b := by
  unfold crowdingStep
  rw [h1, h2, crowdContribution_congr self h1]

/-- The crowding pass reads the neighbor list only through positions and
headings. -/
theorem crowdingPass_congr (self : Biod) (l1 l2 : List Biod)
    (h : List.Forall₂ (fun a b => a.position = b.position ∧ a.heading = b.heading) l1 l2) :
    crowdingPass self l1 = crowdingPass self l2 := by
  unfold crowdingPass
  generalize (((⟨0, 0⟩, 0, ⟨0, 0⟩, ⟨0, 0⟩) : Vec × ℕ × Vec × Vec)) = init
  induction h generalizing init with
  | nil => rfl
  | cons hab htail ih =>
    simp only [List.foldl_cons]
    rw [crowdingStep_congr self init hab.1 hab.2]
    exact ih _

/-- calculateNewHeading depends on the other flock entries only through
their positions and headings, and on the selected entry in full: lists
agreeing pointwise on position and heading, and exactly at index k,
produce the same desired heading and the same updated biod. -/
theorem calc_congr (fl1 fl2 : List Biod) (k : ℕ)
    (hlen : fl1.length = fl2.length)
    (hph : ∀ i, (fl1.getD i default).position = (fl2.getD i default).position ∧
                (fl1.getD i default).heading = (fl2.getD i default).heading)
    (hk : fl1.getD k default = fl2.getD k default) :
    Biod.calculateNewHeading fl1 k = Biod.calculateNewHeading fl2 k := by
  have hf2 := forall2_of_pointwise fl1 fl2 hlen hph
  have hnb : List.Forall₂ (fun a b => a.position = b.position ∧ a.heading = b.heading)
      (neighborsOf fl1 k) (neighborsOf fl2 k) := by
    unfold neighborsOf
    rw [hk]
    exact neighborsAux_congr _ k 0 _ _ hf2
  have hcp : crowdingPass (fl2.getD k default) (neighborsOf fl1 k) =
      crowdingPass (fl2.getD k default) (neighborsOf fl2 k) :=
    crowdingPass_congr _ _ _ hnb
  have hlen_nb : (neighborsOf fl1 k).length = (neighborsOf fl2 k).length :=
    List.Forall₂.length_eq hnb
  simp only [Biod.calculateNewHeading]
  rw [hk, hcp, hlen_nb]

/-- Invariant of the heading-computation loop: while successive biods
are updated in place (accumulators cleared, diagnostics set), every
position and heading stays what it was at loop entry, and consequently
every computed desired heading equals the one computed from the
loop-entry snapshot. -/
theorem headingPhaseAux_spec : ∀ (fuel : ℕ) (fl0 g : List Biod) (k : ℕ) (acc : List Vec),
    fuel + k = fl0.length →
    g.length = fl0.length →
    (∀ i, k ≤ i → g.getD i default = fl0.getD i default) →
    (∀ i, (g.getD i default).position = (fl0.getD i default).position ∧
          (g.getD i default).heading = (fl0.getD i default).heading) →
    (headingPhaseAux fuel k g acc).1 =
      acc ++ (List.range' k fuel).map (fun i => (Biod.calculateNewHeading fl0 i).1) ∧
    (∀ i, ((headingPhaseAux fuel k g acc).2.getD i default).position =
            (fl0.getD i default).position ∧
          ((headingPhaseAux fuel k g acc).2.getD i default).heading =
            (fl0.getD i default).heading) ∧
    (headingPhaseAux fuel k g acc).2.length = fl0.length := by
  intro fuel
  induction fuel with
  | zero =>
    intro fl0 g k acc hfk hlen hsuf hph
    refine ⟨?_, hph, hlen⟩
    show acc = acc ++ (List.range' k 0).map fun i => (Biod.calculateNewHeading fl0 i).1
    simp
  | succ fuel ih =>
    intro fl0 g k acc hfk hlen hsuf hph
    have hklt : k < g.length := by omega
    have hcalc : Biod.calculateNewHeading g k = Biod.calculateNewHeading fl0 k :=
      calc_congr g fl0 k hlen hph (hsuf k le_rfl)
    have hstep : headingPhaseAux (fuel + 1) k g acc =
        headingPhaseAux fuel (k + 1) (g.set k (Biod.calculateNewHeading g k).2)
          (acc ++ [(Biod.calculateNewHeading g k).1]) := rfl
    rw [hstep, hcalc]
    have hsuf2 : ∀ i, k + 1 ≤ i →
        ((g.set k (Biod.calculateNewHeading fl0 k).2).getD i default) = fl0.getD i default := by
      intro i hi
      rw [getD_set_ne _ _ (by omega)]
      exact hsuf i (by omega)
    have hph2 : ∀ i,
        ((g.set k (Biod.calculateNewHeading fl0 k).2).getD i default).position =
          (fl0.getD i default).position ∧
        ((g.set k (Biod.calculateNewHeading fl0 k).2).getD i default).heading =
          (fl0.getD i default).heading := by
      intro i
      by_cases hik : k = i
      · subst hik
        rw [getD_set_self _ _ hklt]
        have hgk : g.getD k default = fl0.getD k default := hsuf k le_rfl
        rw [calc_snd_position, calc_snd_heading]
        exact ⟨rfl, rfl⟩
      · rw [getD_set_ne _ _ hik]
        exact hph i
    obtain ⟨h1, h2, h3⟩ := ih fl0 (g.set k (Biod.calculateNewHeading fl0 k).2) (k + 1)
      (acc ++ [(Biod.calculateNewHeading fl0 k).1]) (by omega)
      (by rw [List.length_set]; exact hlen) hsuf2 hph2
    refine ⟨?_, h2, h3⟩
    rw [h1, List.range'_succ]
    simp [List.append_assoc]

/-- C9: the biod phase is two-phase with respect to one snapshot.  The
list of desired headings produced by the in-place heading loop equals
the pure map of calculateNewHeading over the loop-entry flock, no
position or heading is mutated during the heading loop (only
accumulators and diagnostics change), and in the full tick every
predator's desired heading is computed from the single
post-predation-and-emitters flock list before any predator moves. -/
theorem c9_snapshot_phases : ∀ fl : List Biod,
    (headingPhase fl).1 =
      (List.range fl.length).map (fun k => (Biod.calculateNewHeading fl k).1) ∧
    (∀ i, ((headingPhase fl).2.getD i default).position = (fl.getD i default).position ∧
          ((headingPhase fl).2.getD i default).heading = (fl.getD i default).heading) ∧
    (headingPhase fl).2.length = fl.length ∧
    (∀ s : FlockState, (Flock.update s).predators =
      (movePredators s.predators
        (s.predators.map fun p => p.calculateNewHeading (preFlock s)) (preFlock s)).1) := by
  intro fl
  obtain ⟨h1, h2, h3⟩ := headingPhaseAux_spec fl.length fl fl 0 [] (by omega) rfl
    (fun i _ => rfl) (fun i => ⟨rfl, rfl⟩)
  refine ⟨?_, h2, h3, fun s => rfl⟩
  show (headingPhaseAux fl.length 0 fl []).1 = _
  rw [h1, List.range_eq_range']
  simp
